import Mathlib

set_option autoImplicit false
set_option maxRecDepth 100000

/-!
Shallow embedding of the job-orchestration core of the
`mcp-video-processing-service` repository: the job record store
(`job_store.py`), the FFmpeg command / filter-graph builders
(`ffmpeg/command_builder.py`), and the two Celery pipeline tasks
(`tasks.py`), together with theorems settling the frozen claims.

Modelling conventions:
* Python `str` is `String`; `int` is `Int` (or `Nat` where the source only
  ever holds small non-negative values, e.g. progress percents);
  `float` values that the source renders into filter strings are exact
  short decimals (`PyFloat`) together with rendering functions that agree
  with CPython formatting on the values the service feeds them.
* Python dicts are insertion-ordered association lists.
* `datetime.utcnow()` is an explicit clock argument `now : Nat`.
* Filesystem writes inside the per-job workspace and logging calls are
  effect-free for the job record store and are not modelled.
* External effects (asset fetch/download/upload, ffmpeg execution, probe,
  and the reachability of each store round trip) are driven by an oracle
  stream, so theorems quantify over every possible sequence of outcomes.
-/

namespace MCPVideo

/-- Single-quote character (ASCII 39), as written by the manifest generator
and the overlay `enable` expression. -/
def SQ : String := String.singleton (Char.ofNat 39)

/-- Python `sep.join(xs)`: concatenate with `sep` between consecutive
elements. -/
def joinSep (sep : String) : List String → String
  | [] => ""
  | [x] => x
  | x :: y :: xs => x ++ sep ++ joinSep sep (y :: xs)

/-- Split a string at every occurrence of the character `c`; the auxiliary
accumulator holds the current field reversed. -/
def splitCharAux (c : Char) : List Char → List Char → List String
  | [], acc => [String.mk acc.reverse]
  | d :: ds, acc =>
    if d = c then String.mk acc.reverse :: splitCharAux c ds []
    else splitCharAux c ds (d :: acc)

/-- Split a string at every occurrence of the character `c` (for `c = '\n'`
this is the line decomposition of a text file, the last entry being the
residue after the final newline). -/
def splitChar (c : Char) (s : String) : List String :=
  splitCharAux c s.toList []

/-- Python `dict` lookup on an insertion-ordered association list: first
matching key wins. -/
def alistGet {α : Type} : List (String × α) → String → Option α
  | [], _ => none
  | (k', v) :: rest, k => if k' = k then some v else alistGet rest k

/-- Python `d[k] = v`: replace the value in place if the key is present
(keeping its position), otherwise append the new entry. -/
def alistSet {α : Type} : List (String × α) → String → α → List (String × α)
  | [], k, v => [(k, v)]
  | (k', v') :: rest, k, v =>
    if k' = k then (k, v) :: rest else (k', v') :: alistSet rest k v

/-- Python `dict[str, str]` (job metadata maps). -/
abbrev PyDict := List (String × String)

/-- Lookup in a metadata map. -/
def dictGet (d : PyDict) (k : String) : Option String := alistGet d k

/-- Python `{**a, **b}`: keys of `a` first in order (values taken from `b`
on conflict), then the keys of `b` not present in `a`, in order. -/
def dictMerge (a b : PyDict) : PyDict :=
  (a.map (fun p => match dictGet b p.1 with | some v => (p.1, v) | none => p)) ++
    b.filter (fun p => (dictGet a p.1).isNone)

/-! ### Job data model (`job_models.py`) -/

/-- `JobStatus` enum. -/
inductive JobStatus
  | queued
  | running
  | succeeded
  | failed
deriving DecidableEq

/-- `ProgressSnapshot` model: percent (validated 0–100), step token,
free-text message, snapshot timestamp. -/
structure ProgressSnapshot where
  percent : Nat
  current_step : Option String
  message : Option String
  updated_at : Nat
deriving DecidableEq

/-- `JobRecord` model: the persisted job document. -/
structure JobRecord where
  job_id : String
  job_type : String
  params : PyDict
  metadata : PyDict
  status : JobStatus
  progress : Option ProgressSnapshot
  result_media_id : Option String
  message : Option String
  error : Option String
  created_at : Nat
  updated_at : Nat
deriving DecidableEq

/-- The key space of a job store (`self._records` for the in-memory store,
the `video-job:*` keys for the Redis variants; JSON serialisation round
trips and is modelled as the identity). -/
abbrev JobMap := List (String × JobRecord)

/-- The keyword arguments of `update_job` (every field defaults to `None`). -/
structure UpdateArgs where
  status : Option JobStatus := none
  progress : Option ProgressSnapshot := none
  result_media_id : Option String := none
  message : Option String := none
  error : Option String := none
  metadata : Option PyDict := none
deriving DecidableEq

/-- The `update_data` patch built by `update_job` (the block is verbatim the
same in `InMemoryJobStore`, `RedisJobStore` and `RedisJobStoreSync`):
`updated_at` is always refreshed; each argument overwrites its field only
when it is not `None`; `metadata` is shallow-merged `{**old, **new}`. -/
def patchRecord (record : JobRecord) (now : Nat) (a : UpdateArgs) : JobRecord :=
  { record with
    updated_at := now
    status := match a.status with | some s => s | none => record.status
    progress := match a.progress with | some p => some p | none => record.progress
    result_media_id :=
      match a.result_media_id with | some v => some v | none => record.result_media_id
    message := match a.message with | some m => some m | none => record.message
    error := match a.error with | some e => some e | none => record.error
    metadata :=
      match a.metadata with
      | some m => dictMerge record.metadata m
      | none => record.metadata }

/-- `InMemoryJobStore.create_job`: `self._records[record.job_id] = record`
(unconditional assignment; no existence check is performed). -/
def InMemoryJobStore.create_job (s : JobMap) (record : JobRecord) : JobMap :=
  alistSet s record.job_id record

/-- `InMemoryJobStore.get_job` (the deep copy is the identity here). -/
def InMemoryJobStore.get_job (s : JobMap) (job_id : String) : Option JobRecord :=
  alistGet s job_id

/-- `InMemoryJobStore.update_job`: look up the record, return `None` if
missing, otherwise store and return the patched copy. -/
def InMemoryJobStore.update_job (s : JobMap) (job_id : String) (now : Nat)
    (a : UpdateArgs) : JobMap × Option JobRecord :=
  match alistGet s job_id with
  | none => (s, none)
  | some record =>
    let new_record := patchRecord record now a
    (alistSet s job_id new_record, some new_record)

/-- `RedisJobStoreSync.create_job`: `SET` of the serialised record
(unconditional; overwrites any existing value at the key). -/
def RedisJobStoreSync.create_job (s : JobMap) (record : JobRecord) : JobMap :=
  alistSet s record.job_id record

/-- `RedisJobStoreSync.get_job`. -/
def RedisJobStoreSync.get_job (s : JobMap) (job_id : String) : Option JobRecord :=
  alistGet s job_id

/-- `RedisJobStoreSync.update_job`: `GET` (via a pipeline), return `None`
if the key is absent, otherwise `SET` and return the patched record.  The
JSON round trip is the identity, so the computation coincides with the
in-memory variant. -/
def RedisJobStoreSync.update_job (s : JobMap) (job_id : String) (now : Nat)
    (a : UpdateArgs) : JobMap × Option JobRecord :=
  match alistGet s job_id with
  | none => (s, none)
  | some record =>
    let updated := patchRecord record now a
    (alistSet s job_id updated, some updated)

/-! ### Command and filter-graph builders (`ffmpeg/command_builder.py`) -/

/-- The fixed normalisation filter. -/
def DEFAULT_SCALE_FILTER : String :=
  "scale=1280:720:force_original_aspect_ratio=decrease,pad=1280:720:(ow-iw)/2:(oh-ih)/2,setsar=1"

/-- Index of the last occurrence of `c`, if any. -/
def lastIdxOf (c : Char) : List Char → Option Nat
  | [] => none
  | d :: ds =>
    match lastIdxOf c ds with
    | some i => some (i + 1)
    | none => if d = c then some 0 else none

/-- Drop the extension of a path's final component, as
`pathlib.PurePath.with_suffix` does: text from the last dot, provided the
dot is not the leading character. -/
def stripSuffixName (name : String) : String :=
  match lastIdxOf '.' name.toList with
  | some i => if 0 < i then String.mk (name.toList.take i) else name
  | none => name

/-- `pathlib.Path.with_suffix(ext)` on a POSIX path string: replace the
extension of the final component (after the last slash) with `ext`
(which includes the dot). -/
def withSuffix (p : String) (ext : String) : String :=
  match lastIdxOf '/' p.toList with
  | some i =>
    String.mk (p.toList.take (i + 1)) ++
      stripSuffixName (String.mk (p.toList.drop (i + 1))) ++ ext
  | none => stripSuffixName p ++ ext

/-- `build_concat_command` — the concat-demuxer invocation. -/
def build_concat_command (ffmpeg_binary : String) (filelist_path : String)
    (output_path : String) (output_format : String) (crf : Int)
    (audio_passthrough : Bool) : List String :=
  let command :=
    [ffmpeg_binary, "-y", "-f", "concat", "-safe", "0", "-i", filelist_path,
     "-vf", DEFAULT_SCALE_FILTER, "-c:v", "libx264", "-crf", toString crf,
     "-preset", "medium"]
  let command :=
    command ++ (if audio_passthrough then ["-c:a", "copy"]
                else ["-c:a", "aac", "-b:a", "192k"])
  command ++ ["-movflags", "+faststart", withSuffix output_path ("." ++ output_format)]

/-- One manifest line: `file '<posix-path>'` (the comprehension body of
`generate_concat_filelist`). -/
def manifestLine (path : String) : String := "file " ++ SQ ++ path ++ SQ

/-- `generate_concat_filelist`, returned as the text written to the
filelist: the lines joined by newlines plus a trailing newline.  Inputs are
the `as_posix()` renderings of the paths. -/
def generate_concat_filelist (inputs : List String) : String :=
  let lines := inputs.map manifestLine
  joinSep "\n" lines ++ "\n"

/-- Zero-pad a natural number to three digits (the fractional part of a
`.3f` rendering). -/
def pad3 (n : Nat) : String :=
  if n < 10 then "00" ++ toString n
  else if n < 100 then "0" ++ toString n
  else toString n

/-- Python `f"{n / 1000:.3f}"` for an integer `n` of milliseconds: the exact
value `n / 1000` has at most three decimals, and for every magnitude the
service can see the double round trip reproduces them, so the rendering is
sign, integer part, dot, three zero-padded fraction digits. -/
def fmtMsAsSeconds (n : Int) : String :=
  let a := n.natAbs
  (if n < 0 then "-" else "") ++ toString (a / 1000) ++ "." ++ pad3 (a % 1000)

/-- Left-pad a digit string with zeros to width `d`. -/
def padZeros (s : String) (d : Nat) : String :=
  if s.length < d then String.mk (List.replicate (d - s.length) '0') ++ s else s

/-- Drop trailing `'0'` characters. -/
def stripTrailingZeros (s : String) : String :=
  String.mk ((s.toList.reverse.dropWhile (fun c => c = '0')).reverse)

/-- A Python float whose value is an exact short decimal,
`mantissa / 10 ^ exp` — the only float values the service feeds the filter
builder (validated opacities in `[0, 1]` and scale factors such as `0.5`).
The representation need not be reduced: trailing decimal zeros are stripped
during rendering. -/
structure PyFloat where
  mantissa : Int
  exp : Nat
deriving DecidableEq

/-- Python truthiness of a float: non-zero. -/
def PyFloat.truthy (f : PyFloat) : Bool := f.mantissa != 0

/-- `f < 1.0` for an exact-decimal float. -/
def PyFloat.lt1 (f : PyFloat) : Bool := f.mantissa < (10 : Int) ^ f.exp

/-- Python f-string / `repr` rendering of an exact-short-decimal float: the
shortest decimal digit string (CPython `repr` round-trips such values to
exactly this form), with integral values rendered with a trailing `.0`. -/
def pyFloatRepr (f : PyFloat) : String :=
  let a := f.mantissa.natAbs
  let frac := stripTrailingZeros (padZeros (toString (a % 10 ^ f.exp)) f.exp)
  (if f.mantissa < 0 then "-" else "") ++ toString (a / 10 ^ f.exp) ++ "." ++
    (if frac = "" then "0" else frac)

/-- One element of the `overlays` argument of `build_overlay_filter`
(the dict keys `x`, `y`, `start`, `end`, `opacity`, `scale`; `end` is a
reserved word in Lean, hence `end_`). -/
structure OverlayFilterSpec where
  x : Int
  y : Int
  start : Option Int
  end_ : Option Int
  opacity : Option PyFloat
  scale : Option PyFloat
deriving DecidableEq

/-- The per-overlay loop of `build_overlay_filter`: `idx` enumerates from 1,
`current_label` is the running base label.  Returns the generated filter
parts together with the final running label. -/
def overlayLoop : List OverlayFilterSpec → Nat → String → List String × String
  | [], _, current_label => ([], current_label)
  | spec :: rest, idx, current_label =>
    let label_out := "ov" ++ toString idx
    let source_label := toString idx ++ ":v"
    let scaleComponents : List String :=
      match spec.scale with
      | some s =>
        if s.truthy then ["scale=iw*" ++ pyFloatRepr s ++ ":ih*" ++ pyFloatRepr s] else []
      | none => []
    let opacityComponents : List String :=
      match spec.opacity with
      | some o => if o.lt1 then ["format=rgba,colorchannelmixer=aa=" ++ pyFloatRepr o] else []
      | none => []
    let components := scaleComponents ++ opacityComponents
    let preParts : List String :=
      if components = [] then []
      else ["[" ++ source_label ++ "]" ++ joinSep "," components ++
            "[overlay" ++ toString idx ++ "]"]
    let overlay_stream :=
      if components = [] then source_label else "overlay" ++ toString idx
    let conditions : List String :=
      (match spec.start with
       | some s => ["gte(t," ++ fmtMsAsSeconds s ++ ")"]
       | none => []) ++
      (match spec.end_ with
       | some e => ["lte(t," ++ fmtMsAsSeconds e ++ ")"]
       | none => [])
    let enable_clause : String :=
      if spec.start.isSome || spec.end_.isSome then
        ":enable=" ++ SQ ++ joinSep "*" conditions ++ SQ
      else ""
    let overlayPart :=
      "[" ++ current_label ++ "][" ++ overlay_stream ++ "]overlay=x=" ++
        toString spec.x ++ ":y=" ++ toString spec.y ++ enable_clause ++
        "[" ++ label_out ++ "]"
    let next := overlayLoop rest (idx + 1) label_out
    (preParts ++ [overlayPart] ++ next.1, next.2)

/-- `build_overlay_filter`: normalise the base into `[base]`, run the
overlay loop, SAR-normalise the final label into `[outv]`, join with
semicolons. -/
def build_overlay_filter (overlays : List OverlayFilterSpec) : String :=
  let looped := overlayLoop overlays 1 "base"
  joinSep ";"
    (("[0:v]" ++ DEFAULT_SCALE_FILTER ++ "[base]") ::
      looped.1 ++ ["[" ++ looped.2 ++ "]setsar=1[outv]"])

/-- The inline trim+re-encode invocation built inside `concat_video`
(tasks.py, download loop): `none` when the input has no trim window, in
which case no re-encode runs and the downloaded file is used as is. -/
def trim_command (ffmpeg_binary : String) (downloaded : String) (trimmed : String)
    (default_crf : Int) (start_ms : Option Int) (end_ms : Option Int) :
    Option (List String) :=
  match start_ms, end_ms with
  | none, none => none
  | _, _ =>
    some ([ffmpeg_binary, "-y", "-i", downloaded] ++
      (match start_ms with
       | some s => ["-ss", fmtMsAsSeconds s]
       | none => []) ++
      (match end_ms with
       | some e =>
         match start_ms with
         | some s => ["-t", fmtMsAsSeconds (e - s)]
         | none => ["-to", fmtMsAsSeconds e]
       | none => []) ++
      ["-c:v", "libx264", "-preset", "medium", "-crf", toString default_crf,
       "-c:a", "aac", "-b:a", "192k", trimmed])

/-- Whether an argument list contains the consecutive pair `x, y`. -/
def hasPair (x y : String) : List String → Bool
  | a :: b :: rest => (a == x && b == y) || hasPair x y (b :: rest)
  | _ => false

/-! ### Pipeline orchestrator (`tasks.py`)

The two Celery tasks are embedded as step-by-step interpreters.  Every
external call (store round trip, asset fetch/download, ffmpeg execution,
probe, upload) consumes the next element of an oracle stream, which either
yields a value or raises; an exhausted stream yields success with an empty
value.  Logging calls are modelled as effect-free (note: the handlers call
the stdlib logger with structlog-style keyword arguments, which the stdlib
rejects at runtime when the level is enabled; that logging mishap is
incidental to the orchestration logic modelled here).  Workspace file
operations are job-private and not modelled. -/

/-- `ConcatInput` request model. -/
structure ConcatInput where
  media_id : String
  start_ms : Option Int
  end_ms : Option Int
deriving DecidableEq

/-- `ConcatJobRequest` model (`inputs` is validated non-empty at intake). -/
structure ConcatJobRequest where
  inputs : List ConcatInput
  audio_track : Option String
  output_format : String
  metadata : PyDict
deriving DecidableEq

/-- `OverlayAsset` request model. -/
structure OverlayAsset where
  media_id : String
  position_x : Int
  position_y : Int
  start_ms : Option Int
  end_ms : Option Int
  opacity : PyFloat
  scale : Option PyFloat
deriving DecidableEq

/-- `OverlayJobRequest` model (`overlays` is validated non-empty at intake). -/
structure OverlayJobRequest where
  input_media_id : String
  overlays : List OverlayAsset
  output_format : String
  metadata : PyDict
deriving DecidableEq

/-- The exceptions a pipeline run can observe: `FFmpegExecutionError`
(matched by the first except clause), `JobStoreError`, gateway errors and
anything else (all matched by the second). -/
inductive PyErr
  | ffmpegError (cmd : List String) (stderr : String)
  | storeError (msg : String)
  | gatewayError (msg : String)
  | otherError (msg : String)
deriving DecidableEq

/-- `str(exc)` for the caught exception; for `FFmpegExecutionError` the
message is assembled in `runner.py`. -/
def pyStr : PyErr → String
  | .ffmpegError cmd stderr => "FFmpeg command failed: " ++ joinSep " " cmd ++ "\n" ++ stderr
  | .storeError m => m
  | .gatewayError m => m
  | .otherError m => m

/-- Outcome of one external effect, chosen by the oracle stream. -/
inductive EffR
  | ok (val : String)
  | err (e : PyErr)
deriving DecidableEq

instance {ε α : Type} [DecidableEq ε] [DecidableEq α] : DecidableEq (Except ε α) :=
  fun a b =>
    match a, b with
    | .error e1, .error e2 =>
      if h : e1 = e2 then .isTrue (by rw [h])
      else .isFalse (by intro hh; cases hh; exact h rfl)
    | .ok v1, .ok v2 =>
      if h : v1 = v2 then .isTrue (by rw [h])
      else .isFalse (by intro hh; cases hh; exact h rfl)
    | .error _, .ok _ => .isFalse (by intro hh; cases hh)
    | .ok _, .error _ => .isFalse (by intro hh; cases hh)

/-- Interpreter state: job store contents, remaining oracle stream, and the
sequence of progress percents successfully written to the job record. -/
structure RunSt where
  store : JobMap
  env : List EffR
  trace : List Nat
deriving DecidableEq

/-- Consume the next oracle outcome (an exhausted stream succeeds with an
empty value). -/
def popEff (st : RunSt) : EffR × RunSt :=
  match st.env with
  | [] => (.ok "", st)
  | r :: rest => (r, { st with env := rest })

/-- A `job_store.update_job(...)` call from a task: the round trip may
raise (leaving the store untouched); otherwise the synchronous Redis store
applies the patch.  When the call carries a progress snapshot and the
record exists, the written percent is appended to the trace. -/
def doUpdate (job_id : String) (now : Nat) (a : UpdateArgs) (st : RunSt) :
    RunSt × Except PyErr Unit :=
  match popEff st with
  | (.err e, st') => (st', .error e)
  | (.ok _, st') =>
    let upd := RedisJobStoreSync.update_job st'.store job_id now a
    let traced : List Nat :=
      match a.progress, upd.2 with
      | some p, some _ => st'.trace ++ [p.percent]
      | _, _ => st'.trace
    ({ store := upd.1, env := st'.env, trace := traced }, .ok ())

/-- Any other external call (asset fetch, download, `execute_ffmpeg`,
`probe_streams`, `upload_media`): yields an environment-chosen value or
raises; the job store and the progress trace are untouched. -/
def doExt (st : RunSt) : RunSt × Except PyErr String :=
  match popEff st with
  | (.err e, st') => (st', .error e)
  | (.ok v, st') => (st', .ok v)

/-- `_progress(percent, step, message)` (snapshot timestamp from the
clock). -/
def mkProgress (now : Nat) (percent : Nat) (step : String) (msg : String) :
    ProgressSnapshot :=
  ⟨percent, some step, some msg, now⟩

/-- An `update_job` call that only reports progress. -/
def progressUpdate (p : ProgressSnapshot) : UpdateArgs := { progress := some p }

/-- Sequencing of two pipeline statements: run `f`; on an exception it
propagates (Python `try` semantics), otherwise continue with `k` on the
value. -/
def pseq {α : Type} (f : RunSt → RunSt × Except PyErr α)
    (k : α → RunSt → RunSt × Except PyErr Unit) (st : RunSt) :
    RunSt × Except PyErr Unit :=
  match f st with
  | (st', .error e) => (st', .error e)
  | (st', .ok v) => k v st'

/-- The empty pipeline statement. -/
def pdone (st : RunSt) : RunSt × Except PyErr Unit := (st, .ok ())

/-- The per-input download loop of `concat_video` (tasks.py lines 108–143):
progress update at `10 + index * 10`, fetch, download, and — when a trim
window is present — one trim re-encode ffmpeg run. -/
def concatDownloadLoop (job_id : String) (now : Nat) :
    List ConcatInput → Nat → RunSt → RunSt × Except PyErr Unit
  | [], _ => pdone
  | input_item :: rest, index =>
    pseq (doUpdate job_id now
      (progressUpdate (mkProgress now (10 + index * 10) "download"
        ("Downloading input " ++ toString (index + 1))))) (fun _ =>
    pseq doExt (fun _asset => -- client.fetch_media(input_item.media_id)
    pseq doExt (fun _path => -- _download_to_temp(client, asset, segments_dir)
    if input_item.start_ms.isSome || input_item.end_ms.isSome then
      pseq doExt (fun _ => -- execute_ffmpeg(trim_command ...)
        concatDownloadLoop job_id now rest (index + 1))
    else
      concatDownloadLoop job_id now rest (index + 1))))

/-- The optional audio-override step of `concat_video`: progress 75, fetch
the audio asset, download it, run the re-mux command. -/
def concatAudioStep (job_id : String) (now : Nat) :
    Option String → RunSt → RunSt × Except PyErr Unit
  | none => pdone
  | some _track =>
    pseq (doUpdate job_id now
      (progressUpdate (mkProgress now 75 "audio" "Mixing override audio track"))) (fun _ =>
    pseq doExt (fun _audio => -- client.fetch_media(request.audio_track)
    pseq doExt (fun _ =>     -- _download_to_temp(client, audio_asset, temp_dir)
    pseq doExt (fun _ =>     -- execute_ffmpeg(mix_command)
    pdone))))

/-- The `try` block of `concat_video`: download loop, progress 60, concat
encode, optional audio re-mux step, probe (progress 85), upload (progress
92), then the terminal `SUCCEEDED` update carrying the uploaded asset id
and the probed summary metadata (`_safe_metadata(summary)`). -/
def concat_body (job_id : String) (now : Nat) (request : ConcatJobRequest)
    (summary : PyDict) : RunSt → RunSt × Except PyErr Unit :=
  pseq (concatDownloadLoop job_id now request.inputs 0) (fun _ =>
  pseq (doUpdate job_id now
    (progressUpdate (mkProgress now 60 "processing" "Concatenating segments"))) (fun _ =>
  -- generate_concat_filelist / build_concat_command are pure; then:
  pseq doExt (fun _ => -- execute_ffmpeg(concat command)
  pseq (concatAudioStep job_id now request.audio_track) (fun _ =>
  pseq (doUpdate job_id now
    (progressUpdate (mkProgress now 85 "probe" "Analyzing output"))) (fun _ =>
  pseq doExt (fun _ => -- probe_streams(...); summarize_media is pure
  pseq (doUpdate job_id now
    (progressUpdate (mkProgress now 92 "upload" "Uploading result to PayloadCMS"))) (fun _ =>
  pseq doExt (fun result_media_id => -- client.upload_media(...)
  doUpdate job_id now
    { status := some .succeeded
      progress := some (mkProgress now 100 "completed" "Job completed")
      result_media_id := some result_media_id
      metadata := some summary
      message := some "Video concatenation successful" }))))))))

/-- Message recorded by the `concat_video` failure handlers: the first
except clause matches `FFmpegExecutionError`, the second everything else. -/
def concatFailureMessage : PyErr → String
  | .ffmpegError _ _ => "FFmpeg command failed"
  | _ => "Unhandled error during video concat"

/-- `concat_video`: the initial `RUNNING` update (before the `try` block, so
its failure propagates without a handler), the try body, and the failure
handlers which record `FAILED` with the stringified exception and re-raise.
An exception raised by the handler's own store update propagates instead. -/
def concat_video (job_id : String) (now : Nat) (request : ConcatJobRequest)
    (summary : PyDict) (st : RunSt) : RunSt × Except PyErr Unit :=
  match doUpdate job_id now
      { status := some .running
        progress := some (mkProgress now 5 "accepted" "Job accepted by worker") } st with
  | (st, .error e) => (st, .error e)
  | (st, .ok _) =>
    match concat_body job_id now request summary st with
    | (st, .ok _) => (st, .ok ())
    | (st, .error e) =>
      match doUpdate job_id now
          { status := some .failed
            progress := some (mkProgress now 100 "failed" "Processing failed")
            message := some (concatFailureMessage e)
            error := some (pyStr e) } st with
      | (st, .error e2) => (st, .error e2)
      | (st, .ok _) => (st, .error e)

/-- The per-overlay download loop of `overlay_video`: progress update at
`15 + index * 5`, fetch, download. -/
def overlayDownloadLoop (job_id : String) (now : Nat) :
    List OverlayAsset → Nat → RunSt → RunSt × Except PyErr Unit
  | [], _ => pdone
  | _overlay :: rest, index =>
    pseq (doUpdate job_id now
      (progressUpdate (mkProgress now (15 + index * 5) "download"
        ("Downloading overlay " ++ toString (index + 1))))) (fun _ =>
    pseq doExt (fun _asset => -- client.fetch_media(overlay.media_id)
    pseq doExt (fun _path => -- _download_to_temp(client, asset, temp_dir)
    overlayDownloadLoop job_id now rest (index + 1))))

/-- The `try` block of `overlay_video`: base fetch and download, overlay
download loop, filter-graph construction (pure), progress 60, overlay
encode, probe (progress 85), upload (progress 92), terminal `SUCCEEDED`. -/
def overlay_body (job_id : String) (now : Nat) (request : OverlayJobRequest)
    (summary : PyDict) : RunSt → RunSt × Except PyErr Unit :=
  pseq doExt (fun _base => -- client.fetch_media(request.input_media_id)
  pseq doExt (fun _ =>     -- _download_to_temp(client, base_asset, temp_dir)
  pseq (overlayDownloadLoop job_id now request.overlays 0) (fun _ =>
  -- build_overlay_filter / build_overlay_command are pure; then:
  pseq (doUpdate job_id now
    (progressUpdate (mkProgress now 60 "processing" "Rendering overlays"))) (fun _ =>
  pseq doExt (fun _ => -- execute_ffmpeg(overlay command)
  pseq (doUpdate job_id now
    (progressUpdate (mkProgress now 85 "probe" "Analyzing output"))) (fun _ =>
  pseq doExt (fun _ => -- probe_streams(...)
  pseq (doUpdate job_id now
    (progressUpdate (mkProgress now 92 "upload" "Uploading result to PayloadCMS"))) (fun _ =>
  pseq doExt (fun result_media_id => -- client.upload_media(...)
  doUpdate job_id now
    { status := some .succeeded
      progress := some (mkProgress now 100 "completed" "Job completed")
      result_media_id := some result_media_id
      metadata := some summary
      message := some "Overlay applied successfully" })))))))))

/-- Message recorded by the `overlay_video` failure handlers. -/
def overlayFailureMessage : PyErr → String
  | .ffmpegError _ _ => "FFmpeg command failed"
  | _ => "Unhandled error during overlay"

/-- `overlay_video`: initial `RUNNING` update, try body, failure handlers
recording `FAILED` then re-raising. -/
def overlay_video (job_id : String) (now : Nat) (request : OverlayJobRequest)
    (summary : PyDict) (st : RunSt) : RunSt × Except PyErr Unit :=
  match doUpdate job_id now
      { status := some .running
        progress := some (mkProgress now 5 "accepted" "Job accepted by worker") } st with
  | (st, .error e) => (st, .error e)
  | (st, .ok _) =>
    match overlay_body job_id now request summary st with
    | (st, .ok _) => (st, .ok ())
    | (st, .error e) =>
      match doUpdate job_id now
          { status := some .failed
            progress := some (mkProgress now 100 "failed" "Processing failed")
            message := some (overlayFailureMessage e)
            error := some (pyStr e) } st with
      | (st, .error e2) => (st, .error e2)
      | (st, .ok _) => (st, .error e)

/-- Iterated `update_job` calls against one id (for frame-condition
corollaries about sequences of updates). -/
def applyUpdates (s : JobMap) (id : String) : List (Nat × UpdateArgs) → JobMap
  | [] => s
  | u :: rest => applyUpdates (InMemoryJobStore.update_job s id u.1 u.2).1 id rest

/-- Shared concrete fixtures for witnesses and counterexamples. -/
def sampleRecord : JobRecord :=
  ⟨"job-1", "concat", [], [], .queued, none, none, none, none, 0, 0⟩

/-- A concat input with no trim window. -/
def sampleInput (i : String) : ConcatInput := ⟨i, none, none⟩

/-- An always-active opaque overlay asset. -/
def sampleOverlay (i : String) : OverlayAsset := ⟨i, 0, 0, none, none, ⟨1, 0⟩, none⟩

/-! ## Association-list and dict-merge lemmas -/

theorem alistGet_alistSet_self {α : Type} (s : List (String × α)) (k : String) (v : α) :
    alistGet (alistSet s k v) k = some v := by
  induction s with
  | nil => simp [alistSet, alistGet]
  | cons p rest ih =>
    obtain ⟨k', v'⟩ := p
    by_cases h : k' = k
    · simp [alistSet, h, alistGet]
    · simp [alistSet, h, alistGet, ih]

theorem alistGet_alistSet_ne {α : Type} (s : List (String × α)) (k k' : String) (v : α)
    (h : k' ≠ k) : alistGet (alistSet s k v) k' = alistGet s k' := by
  induction s with
  | nil => simp [alistSet, alistGet, Ne.symm h]
  | cons p rest ih =>
    obtain ⟨k0, v0⟩ := p
    by_cases h0 : k0 = k
    · subst h0
      simp [alistSet, alistGet, Ne.symm h]
    · simp [alistSet, alistGet, h0, ih]

theorem dictGet_append (xs ys : PyDict) (k : String) :
    dictGet (xs ++ ys) k = (dictGet xs k).or (dictGet ys k) := by
  simp only [dictGet]
  induction xs with
  | nil => simp [alistGet, Option.or]
  | cons p rest ih =>
    obtain ⟨k', v⟩ := p
    by_cases h : k' = k
    · simp [alistGet, h, Option.or]
    · simpa [alistGet, h] using ih

theorem dictGet_mapPatch (a b : PyDict) (k : String) :
    dictGet (a.map (fun p => match dictGet b p.1 with | some v => (p.1, v) | none => p)) k =
      (dictGet a k).map (fun v => (dictGet b k).getD v) := by
  simp only [dictGet]
  induction a with
  | nil => rfl
  | cons p rest ih =>
    obtain ⟨k0, v0⟩ := p
    by_cases h : k0 = k
    · subst h
      cases hb : alistGet b k0 <;> simp [alistGet, hb]
    · cases hb : alistGet b k0 <;> simp [alistGet, hb, h, ih]

theorem dictGet_filterNotIn (a b : PyDict) (k : String) :
    dictGet (b.filter (fun p => (dictGet a p.1).isNone)) k =
      if dictGet a k = none then dictGet b k else none := by
  simp only [dictGet]
  induction b with
  | nil => simp [alistGet]
  | cons p rest ih =>
    obtain ⟨k1, v1⟩ := p
    by_cases h : k1 = k
    · subst h
      cases ha : alistGet a k1 <;> simp [List.filter_cons, alistGet, ha, ih]
    · cases ha1 : alistGet a k1 <;> simp [List.filter_cons, alistGet, ha1, h, ih]

/-- The metadata merge law: a `{**old, **new}` lookup prefers `new` and falls
back to `old`. -/
theorem dictGet_dictMerge (a b : PyDict) (k : String) :
    dictGet (dictMerge a b) k = (dictGet b k).or (dictGet a k) := by
  unfold dictMerge
  rw [dictGet_append, dictGet_mapPatch, dictGet_filterNotIn]
  cases ha : dictGet a k <;> cases hb : dictGet b k <;>
    simp [Option.or, Option.getD]

/-! ## Job store characterizations -/

theorem update_job_of_none (s : JobMap) (id : String) (now : Nat) (a : UpdateArgs)
    (h : alistGet s id = none) :
    InMemoryJobStore.update_job s id now a = (s, none) := by
  simp [InMemoryJobStore.update_job, h]

theorem update_job_of_some (s : JobMap) (id : String) (now : Nat) (a : UpdateArgs)
    (r : JobRecord) (h : alistGet s id = some r) :
    InMemoryJobStore.update_job s id now a =
      (alistSet s id (patchRecord r now a), some (patchRecord r now a)) := by
  simp [InMemoryJobStore.update_job, h]

/-- The synchronous Redis store performs the same read-modify-write
computation as the in-memory store. -/
theorem redisSync_update_eq_inMemory :
    RedisJobStoreSync.update_job = InMemoryJobStore.update_job := rfl

/-- A second record carrying the id of `sampleRecord` but different
contents. -/
def sampleRecordB : JobRecord :=
  ⟨"job-1", "concat", [], [("attempt", "2")], .queued, none, none, none, none, 7, 7⟩

/-- `sampleRecord` with one pre-existing metadata entry. -/
def sampleRecordM : JobRecord :=
  ⟨"job-1", "concat", [], [("base", "0")], .queued, none, none, none, none, 0, 0⟩

/-- `sampleRecord` after a failed first attempt: terminal `FAILED` with an
error recorded. -/
def recWithError : JobRecord :=
  ⟨"job-1", "concat", [], [], .failed, none, none, none, some "boom", 0, 0⟩

/-- Claim C6 counterexample: `create` on an id that is already taken does not fail
with `AlreadyExists` — both store variants silently replace the stored
record (`create_job` has no failure channel at all), so the existing record
for the id is not left unchanged. -/
theorem C6_counterexample :
    InMemoryJobStore.get_job
        (InMemoryJobStore.create_job (InMemoryJobStore.create_job [] sampleRecord) sampleRecordB)
        "job-1" = some sampleRecordB ∧
    RedisJobStoreSync.get_job
        (RedisJobStoreSync.create_job (RedisJobStoreSync.create_job [] sampleRecord) sampleRecordB)
        "job-1" = some sampleRecordB ∧
    sampleRecordB ≠ sampleRecord := by
  refine ⟨by decide, by decide, by decide⟩

/-- Claim C6 (amended): for both store variants, `create` with an id already
present in the store does not fail — it unconditionally overwrites the
record stored under that id (last write wins) and leaves every other id
untouched; no `AlreadyExists` error exists in the code. -/
theorem C6_create_overwrites :
    ∀ (s : JobMap) (r : JobRecord),
      InMemoryJobStore.get_job (InMemoryJobStore.create_job s r) r.job_id = some r ∧
      (∀ id, id ≠ r.job_id →
        InMemoryJobStore.get_job (InMemoryJobStore.create_job s r) id =
          InMemoryJobStore.get_job s id) ∧
      RedisJobStoreSync.create_job s r = InMemoryJobStore.create_job s r := by
  intro s r
  exact ⟨alistGet_alistSet_self s r.job_id r,
    fun id h => alistGet_alistSet_ne s r.job_id id r h, rfl⟩

/-- Witness for `C6_create_overwrites` at a concrete store. -/
theorem C6_create_overwrites_witness :
    InMemoryJobStore.get_job (InMemoryJobStore.create_job [] sampleRecord) "job-1" =
      some sampleRecord ∧
    InMemoryJobStore.get_job (InMemoryJobStore.create_job [] sampleRecord) "other" =
      InMemoryJobStore.get_job ([] : JobMap) "other" :=
  ⟨(C6_create_overwrites [] sampleRecord).1,
    (C6_create_overwrites [] sampleRecord).2.1 "other" (by decide)⟩

/-- Claim C7: `update_job` metadata semantics: the shallow merge prefers the new
keys, two successive updates compose so that a key resolves to the second
map, then the first, then the pre-existing metadata (union on disjoint key
sets, most recent value on overlap), `updated_at` is refreshed to the
update's clock, the patched record is what the store then holds, an update
against a missing id returns `NotFound` (`none`) leaving the store
unchanged, and the networked variant computes the same result. -/
theorem C7_metadata_merge :
    ∀ (s : JobMap) (id : String) (r0 : JobRecord) (t1 t2 : Nat) (M1 M2 : PyDict),
      alistGet s id = some r0 →
      (∀ k, dictGet (dictMerge (dictMerge r0.metadata M1) M2) k =
        (dictGet M2 k).or ((dictGet M1 k).or (dictGet r0.metadata k))) ∧
      ((InMemoryJobStore.update_job
          (InMemoryJobStore.update_job s id t1 { metadata := some M1 }).1 id t2
          { metadata := some M2 }).2.map JobRecord.metadata =
        some (dictMerge (dictMerge r0.metadata M1) M2)) ∧
      ((InMemoryJobStore.update_job
          (InMemoryJobStore.update_job s id t1 { metadata := some M1 }).1 id t2
          { metadata := some M2 }).2.map JobRecord.updated_at = some t2) ∧
      (alistGet (InMemoryJobStore.update_job
          (InMemoryJobStore.update_job s id t1 { metadata := some M1 }).1 id t2
          { metadata := some M2 }).1 id =
        (InMemoryJobStore.update_job
          (InMemoryJobStore.update_job s id t1 { metadata := some M1 }).1 id t2
          { metadata := some M2 }).2) ∧
      (∀ id', alistGet s id' = none →
        InMemoryJobStore.update_job s id' t1 { metadata := some M1 } = (s, none)) ∧
      RedisJobStoreSync.update_job s id t1 { metadata := some M1 } =
        InMemoryJobStore.update_job s id t1 { metadata := some M1 } := by
  intro s id r0 t1 t2 M1 M2 h
  have h1 := update_job_of_some s id t1 { metadata := some M1 } r0 h
  have h1get : alistGet (InMemoryJobStore.update_job s id t1 { metadata := some M1 }).1 id =
      some (patchRecord r0 t1 { metadata := some M1 }) := by
    rw [h1]
    exact alistGet_alistSet_self s id _
  have h2 := update_job_of_some _ id t2 { metadata := some M2 } _ h1get
  refine ⟨?_, ?_, ?_, ?_, ?_, ?_⟩
  · intro k
    rw [dictGet_dictMerge, dictGet_dictMerge]
  · rw [h2]
    simp [patchRecord]
  · rw [h2]
    simp [patchRecord]
  · rw [h2]
    exact alistGet_alistSet_self _ id _
  · intro id' h'
    exact update_job_of_none s id' t1 _ h'
  · rw [redisSync_update_eq_inMemory]

/-- Witness for `C7_metadata_merge`: overlapping key takes the newest value,
disjoint keys are unioned, pre-existing metadata survives. -/
theorem C7_metadata_merge_witness :
    alistGet [("job-1", sampleRecordM)] "job-1" = some sampleRecordM ∧
    dictGet (dictMerge (dictMerge sampleRecordM.metadata [("a", "1"), ("dup", "old")])
      [("b", "2"), ("dup", "new")]) "dup" = some "new" ∧
    dictGet (dictMerge (dictMerge sampleRecordM.metadata [("a", "1"), ("dup", "old")])
      [("b", "2"), ("dup", "new")]) "a" = some "1" ∧
    dictGet (dictMerge (dictMerge sampleRecordM.metadata [("a", "1"), ("dup", "old")])
      [("b", "2"), ("dup", "new")]) "base" = some "0" := by
  have h := C7_metadata_merge [("job-1", sampleRecordM)] "job-1" sampleRecordM 1 2
    [("a", "1"), ("dup", "old")] [("b", "2"), ("dup", "new")] (by decide)
  exact ⟨by decide, (h.1 "dup").trans (by decide), (h.1 "a").trans (by decide),
    (h.1 "base").trans (by decide)⟩

/-- A field of `JobRecord` valued in `Option String` that `update_job` can
only overwrite with `some`, never clear, stays non-null across any sequence
of updates. -/
theorem persists_aux (f : JobRecord → Option String)
    (hf : ∀ r now a, f r ≠ none → f (patchRecord r now a) ≠ none) :
    ∀ (updates : List (Nat × UpdateArgs)) (s : JobMap) (id : String),
      (∀ r, alistGet s id = some r → f r ≠ none) →
      ∀ r', alistGet (applyUpdates s id updates) id = some r' → f r' ≠ none := by
  intro updates
  induction updates with
  | nil => intro s id h r' h'; exact h r' h'
  | cons u rest ih =>
    intro s id h
    show ∀ r', alistGet (applyUpdates (InMemoryJobStore.update_job s id u.1 u.2).1 id rest) id =
      some r' → f r' ≠ none
    apply ih
    intro r hr
    cases hg : alistGet s id with
    | none =>
      rw [update_job_of_none s id u.1 u.2 hg] at hr
      exact h r hr
    | some r0 =>
      rw [update_job_of_some s id u.1 u.2 r0 hg] at hr
      rw [alistGet_alistSet_self] at hr
      cases hr
      exact hf r0 u.1 u.2 (h r0 hg)

/-- Claim C10: for an existing record, `update_job` leaves every field other than
the explicitly supplied ones (plus `updated_at`) unchanged; an omitted
(`None`) argument never clears a previously set value; other ids are
untouched; the networked variant computes the same result; and consequently
no sequence of updates can reset a non-null `error` or result reference
back to null. -/
theorem C10_update_frame :
    ∀ (s : JobMap) (id : String) (now : Nat) (a : UpdateArgs) (r0 : JobRecord),
      alistGet s id = some r0 →
      (InMemoryJobStore.update_job s id now a =
        (alistSet s id (patchRecord r0 now a), some (patchRecord r0 now a))) ∧
      (patchRecord r0 now a).job_id = r0.job_id ∧
      (patchRecord r0 now a).job_type = r0.job_type ∧
      (patchRecord r0 now a).params = r0.params ∧
      (patchRecord r0 now a).created_at = r0.created_at ∧
      (patchRecord r0 now a).updated_at = now ∧
      (a.status = none → (patchRecord r0 now a).status = r0.status) ∧
      (a.progress = none → (patchRecord r0 now a).progress = r0.progress) ∧
      (a.result_media_id = none →
        (patchRecord r0 now a).result_media_id = r0.result_media_id) ∧
      (a.message = none → (patchRecord r0 now a).message = r0.message) ∧
      (a.error = none → (patchRecord r0 now a).error = r0.error) ∧
      (a.metadata = none → (patchRecord r0 now a).metadata = r0.metadata) ∧
      (∀ id', id' ≠ id →
        alistGet (InMemoryJobStore.update_job s id now a).1 id' = alistGet s id') ∧
      (RedisJobStoreSync.update_job s id now a = InMemoryJobStore.update_job s id now a) ∧
      (∀ updates, r0.error ≠ none →
        ∀ r', alistGet (applyUpdates s id updates) id = some r' → r'.error ≠ none) ∧
      (∀ updates, r0.result_media_id ≠ none →
        ∀ r', alistGet (applyUpdates s id updates) id = some r' →
          r'.result_media_id ≠ none) := by
  intro s id now a r0 h
  have hupd := update_job_of_some s id now a r0 h
  refine ⟨hupd, rfl, rfl, rfl, rfl, rfl, ?_, ?_, ?_, ?_, ?_, ?_, ?_, ?_, ?_, ?_⟩
  · intro hn; simp [patchRecord, hn]
  · intro hn; simp [patchRecord, hn]
  · intro hn; simp [patchRecord, hn]
  · intro hn; simp [patchRecord, hn]
  · intro hn; simp [patchRecord, hn]
  · intro hn; simp [patchRecord, hn]
  · intro id' hne
    rw [hupd]
    exact alistGet_alistSet_ne s id id' _ hne
  · rw [redisSync_update_eq_inMemory]
  · intro updates hr0
    refine persists_aux JobRecord.error ?_ updates s id ?_
    · intro r nw b hb
      cases he : b.error with
      | none => simpa [patchRecord, he] using hb
      | some e => simp [patchRecord, he]
    · intro r hr
      rw [h] at hr
      cases hr
      exact hr0
  · intro updates hr0
    refine persists_aux JobRecord.result_media_id ?_ updates s id ?_
    · intro r nw b hb
      cases he : b.result_media_id with
      | none => simpa [patchRecord, he] using hb
      | some e => simp [patchRecord, he]
    · intro r hr
      rw [h] at hr
      cases hr
      exact hr0

/-- Witness for `C10_update_frame`: a message-only update against a failed
record leaves status, error and result untouched and refreshes only
`updated_at`. -/
theorem C10_update_frame_witness :
    alistGet [("job-1", recWithError)] "job-1" = some recWithError ∧
    (patchRecord recWithError 5 { message := some "note" }).error = recWithError.error ∧
    (patchRecord recWithError 5 { message := some "note" }).status = recWithError.status ∧
    (patchRecord recWithError 5 { message := some "note" }).result_media_id =
      recWithError.result_media_id ∧
    (patchRecord recWithError 5 { message := some "note" }).updated_at = 5 := by
  have h := C10_update_frame [("job-1", recWithError)] "job-1" 5 { message := some "note" }
    recWithError (by decide)
  exact ⟨by decide, h.2.2.2.2.2.2.2.2.2.2.1 rfl, h.2.2.2.2.2.2.1 rfl,
    h.2.2.2.2.2.2.2.2.1 rfl, h.2.2.2.2.2.1⟩

/-- `Path.with_suffix` output always ends in the new extension. -/
theorem withSuffix_eq_append (p ext : String) :
    ∃ stem, withSuffix p ext = stem ++ ext := by
  unfold withSuffix
  cases h : lastIdxOf '/' p.toList with
  | none => exact ⟨stripSuffixName p, rfl⟩
  | some i =>
    exact ⟨String.mk (p.toList.take (i + 1)) ++
      stripSuffixName (String.mk (p.toList.drop (i + 1))), rfl⟩

/-- The last element of a list extended by three trailing elements. -/
theorem getLast?_append3 {α : Type} (l : List α) (x y z : α) :
    (l ++ [x, y, z]).getLast? = some z := by
  rw [show [x, y, z] = [x, y] ++ [z] from rfl, ← List.append_assoc, List.getLast?_concat]

/-- Claim C8: trim re-encode command construction: with a start offset the command
seeks with `-ss start_ms/1000` at three-decimal precision; with both bounds
it limits the output with `-t (end_ms - start_ms)/1000`; with only an end
bound it uses `-to end_ms/1000`; with no trim window there is no re-encode
invocation at all.  The final two conjuncts exhibit the three-decimal
rendering. -/
theorem C8_trim_command :
    ∀ (b i t : String) (c : Int) (s e : Int),
      trim_command b i t c (some s) (some e) =
        some [b, "-y", "-i", i, "-ss", fmtMsAsSeconds s, "-t", fmtMsAsSeconds (e - s),
          "-c:v", "libx264", "-preset", "medium", "-crf", toString c,
          "-c:a", "aac", "-b:a", "192k", t] ∧
      trim_command b i t c none (some e) =
        some [b, "-y", "-i", i, "-to", fmtMsAsSeconds e, "-c:v", "libx264", "-preset",
          "medium", "-crf", toString c, "-c:a", "aac", "-b:a", "192k", t] ∧
      trim_command b i t c (some s) none =
        some [b, "-y", "-i", i, "-ss", fmtMsAsSeconds s, "-c:v", "libx264", "-preset",
          "medium", "-crf", toString c, "-c:a", "aac", "-b:a", "192k", t] ∧
      trim_command b i t c none none = none ∧
      fmtMsAsSeconds 500 = "0.500" ∧ fmtMsAsSeconds (2250 - 500) = "1.750" := by
  intro b i t c s e
  exact ⟨rfl, rfl, rfl, rfl, by decide, by decide⟩

/-- Claim C3: the concat command built with `crf = 23`, `output_format = "mp4"`
and `audio_passthrough = false` contains the consecutive pairs `-f concat`,
`-safe 0`, `-crf 23` and `-c:a aac`, and its final element (the output
path) ends in `.mp4`; built with `audio_passthrough = true` it contains
`-c:a copy` and no `-c:a aac` pair. -/
theorem C3_concat_command_flags :
    ∀ (b f o : String),
      hasPair "-f" "concat" (build_concat_command b f o "mp4" 23 false) = true ∧
      hasPair "-safe" "0" (build_concat_command b f o "mp4" 23 false) = true ∧
      hasPair "-crf" "23" (build_concat_command b f o "mp4" 23 false) = true ∧
      hasPair "-c:a" "aac" (build_concat_command b f o "mp4" 23 false) = true ∧
      (∃ stem, (build_concat_command b f o "mp4" 23 false).getLast? = some (stem ++ ".mp4")) ∧
      hasPair "-c:a" "copy" (build_concat_command b f o "mp4" 23 true) = true ∧
      hasPair "-c:a" "aac" (build_concat_command b f o "mp4" 23 true) = false ∧
      (∃ stem, (build_concat_command b f o "mp4" 23 true).getLast? = some (stem ++ ".mp4")) := by
  intro b f o
  refine ⟨?_, ?_, ?_, ?_, ?_, ?_, ?_, ?_⟩
  · simp [build_concat_command, hasPair]
  · simp [build_concat_command, hasPair]
  · simp [build_concat_command, hasPair]
    rfl
  · simp [build_concat_command, hasPair]
  · obtain ⟨stem, hs⟩ := withSuffix_eq_append o ("." ++ "mp4")
    refine ⟨stem, ?_⟩
    simp only [build_concat_command]
    rw [List.getLast?_append]
    rw [show (["-movflags", "+faststart", withSuffix o ("." ++ "mp4")] : List String).getLast? =
        some (withSuffix o ("." ++ "mp4")) from rfl, hs]
    rfl
  · simp [build_concat_command, hasPair]
  · simp [build_concat_command, hasPair]
  · obtain ⟨stem, hs⟩ := withSuffix_eq_append o ("." ++ "mp4")
    refine ⟨stem, ?_⟩
    simp only [build_concat_command]
    rw [List.getLast?_append]
    rw [show (["-movflags", "+faststart", withSuffix o ("." ++ "mp4")] : List String).getLast? =
        some (withSuffix o ("." ++ "mp4")) from rfl, hs]
    rfl

/-- Claim C4: the filter graph for a single overlay at `(x=10, y=20)` with
`start = 0 ms`, `end = 1000 ms`, `opacity = 0.5`, `scale = 0.5` contains a
`scale=iw*0.5:ih*0.5` stage, a `colorchannelmixer=aa=0.5` stage and an
`overlay=x=10:y=20:enable='gte(t,0.000)*lte(t,1.000)'` stage, and its final
semicolon-separated segment applies `setsar=1` to produce the terminal
output node `[outv]`. -/
theorem C4_overlay_filter :
    ("scale=iw*0.5:ih*0.5".toList <:+:
      (build_overlay_filter [⟨10, 20, some 0, some 1000, some ⟨5, 1⟩, some ⟨5, 1⟩⟩]).toList) ∧
    ("colorchannelmixer=aa=0.5".toList <:+:
      (build_overlay_filter [⟨10, 20, some 0, some 1000, some ⟨5, 1⟩, some ⟨5, 1⟩⟩]).toList) ∧
    (("overlay=x=10:y=20:enable=" ++ SQ ++ "gte(t,0.000)*lte(t,1.000)" ++ SQ).toList <:+:
      (build_overlay_filter [⟨10, 20, some 0, some 1000, some ⟨5, 1⟩, some ⟨5, 1⟩⟩]).toList) ∧
    ((splitChar ';'
      (build_overlay_filter [⟨10, 20, some 0, some 1000, some ⟨5, 1⟩, some ⟨5, 1⟩⟩])).getLast? =
      some "[ov1]setsar=1[outv]") := by
  refine ⟨?_, ?_, ?_, ?_⟩
  · decide
  · decide
  · decide
  · decide

/-- `String.toList` distributes over append. -/
theorem toList_append (s t : String) : (s ++ t).toList = s.toList ++ t.toList :=
  String.data_append s t

/-- The newline string as a character list. -/
theorem toList_nl : ("\n" : String).toList = ['\n'] := rfl

/-- Rebuilding a string from its characters is the identity. -/
theorem mk_toList (s : String) : String.mk s.toList = s := rfl

/-- Splitting consumes a separator-free prefix up to the first separator. -/
theorem splitCharAux_append (c : Char) (xs rest : List Char) :
    ∀ acc, c ∉ xs →
      splitCharAux c (xs ++ c :: rest) acc =
        String.mk (acc.reverse ++ xs) :: splitCharAux c rest [] := by
  induction xs with
  | nil =>
    intro acc _
    simp [splitCharAux]
  | cons x xs ih =>
    intro acc h
    have hx : ¬ x = c := fun hh => h (by rw [hh]; exact List.mem_cons_self c xs)
    simp only [List.cons_append, splitCharAux, List.append_eq]
    rw [if_neg hx, ih (x :: acc) (fun hm => h (List.mem_cons_of_mem x hm))]
    simp

/-- Splitting a separator-free list yields a single field. -/
theorem splitCharAux_no_sep (c : Char) (xs : List Char) :
    ∀ acc, c ∉ xs → splitCharAux c xs acc = [String.mk (acc.reverse ++ xs)] := by
  induction xs with
  | nil => intro acc _; simp [splitCharAux]
  | cons x xs ih =>
    intro acc h
    have hx : ¬ x = c := fun hh => h (by rw [hh]; exact List.mem_cons_self c xs)
    simp only [splitCharAux]
    rw [if_neg hx, ih (x :: acc) (fun hm => h (List.mem_cons_of_mem x hm))]
    simp

/-- A manifest line contains no newline when the path contains none. -/
theorem manifestLine_no_newline (p : String) (h : '\n' ∉ p.toList) :
    '\n' ∉ (manifestLine p).toList := by
  unfold manifestLine SQ
  intro hm
  rw [toList_append, toList_append, toList_append] at hm
  rcases List.mem_append.mp hm with hm | hm
  · rcases List.mem_append.mp hm with hm | hm
    · rcases List.mem_append.mp hm with hm | hm
      · exact absurd hm (by decide)
      · exact absurd hm (by decide)
    · exact h hm
  · exact absurd hm (by decide)

/-- Claim C5: for every non-empty list of input paths containing no newline
characters, the generated concat manifest consists of exactly one line per
input, each of the exact form `file '<posix-path>'`, in input order, with
the output newline-terminated (the final split field after the trailing
newline is empty).  (`inputs` is validated non-empty at intake.) -/
theorem C5_manifest :
    ∀ (inputs : List String), inputs ≠ [] → (∀ p ∈ inputs, '\n' ∉ p.toList) →
      splitChar '\n' (generate_concat_filelist inputs) =
        inputs.map manifestLine ++ [""] := by
  intro inputs
  induction inputs with
  | nil => intro h; exact absurd rfl h
  | cons p ps ih =>
    intro _ hnl
    have hline : '\n' ∉ (manifestLine p).toList :=
      manifestLine_no_newline p (hnl p (by simp))
    cases ps with
    | nil =>
      show splitCharAux '\n' (generate_concat_filelist [p]).toList [] = _
      have hdata : (generate_concat_filelist [p]).toList =
          (manifestLine p).toList ++ '\n' :: [] := by
        simp [generate_concat_filelist, joinSep, toList_append, toList_nl]
      rw [hdata, splitCharAux_append '\n' _ _ [] hline]
      simp [splitCharAux, mk_toList]
    | cons q ps' =>
      show splitCharAux '\n' (generate_concat_filelist (p :: q :: ps')).toList [] = _
      have hdata : (generate_concat_filelist (p :: q :: ps')).toList =
          (manifestLine p).toList ++ '\n' :: (generate_concat_filelist (q :: ps')).toList := by
        simp [generate_concat_filelist, joinSep, List.map_cons, toList_append, toList_nl]
      rw [hdata, splitCharAux_append '\n' _ _ [] hline]
      rw [show splitCharAux '\n' (generate_concat_filelist (q :: ps')).toList [] =
        splitChar '\n' (generate_concat_filelist (q :: ps')) from rfl]
      rw [ih (by simp) (fun r hr => hnl r (List.mem_cons_of_mem p hr))]
      simp [mk_toList]

/-- Witness for `C5_manifest` on three inputs: exactly three `file '...'`
lines in input order plus the trailing-newline residue. -/
theorem C5_manifest_witness :
    (["a.mp4", "b.mp4", "c.mp4"] : List String) ≠ [] ∧
    splitChar '\n' (generate_concat_filelist ["a.mp4", "b.mp4", "c.mp4"]) =
      ["a.mp4", "b.mp4", "c.mp4"].map manifestLine ++ [""] :=
  ⟨by decide, C5_manifest ["a.mp4", "b.mp4", "c.mp4"] (by decide) (by decide)⟩

/-! ## Pipeline invariants: terminal-field consistency -/

/-- A record that has not reached a terminal state: result and error unset. -/
def recClean (r : JobRecord) : Prop :=
  (r.status = .queued ∨ r.status = .running) ∧ r.result_media_id = none ∧ r.error = none

/-- Every record stored under `id` (if any) is clean. -/
def cleanAt (s : JobMap) (id : String) : Prop :=
  ∀ r, alistGet s id = some r → recClean r

/-- The claimed terminal-field invariant of one record: result non-null iff
`SUCCEEDED`, error non-null iff `FAILED`. -/
def invOk (r : JobRecord) : Prop :=
  ((r.result_media_id ≠ none) ↔ r.status = .succeeded) ∧
  ((r.error ≠ none) ↔ r.status = .failed)

/-- The terminal-field invariant for the record stored under `id` (if any). -/
def invAt (s : JobMap) (id : String) : Prop :=
  ∀ r, alistGet s id = some r → invOk r

theorem invOk_of_recClean (r : JobRecord) (h : recClean r) : invOk r := by
  obtain ⟨hs, h1, h2⟩ := h
  constructor
  · rcases hs with h | h <;> simp [h1, h]
  · rcases hs with h | h <;> simp [h2, h]

theorem invAt_of_cleanAt (s : JobMap) (id : String) (h : cleanAt s id) : invAt s id :=
  fun r hr => invOk_of_recClean r (h r hr)

/-- Update arguments that keep a record non-terminal. -/
def nonTerminalArgs (a : UpdateArgs) : Prop :=
  (a.status = none ∨ a.status = some .running) ∧
    a.result_media_id = none ∧ a.error = none

theorem nonTerminalArgs_progress (p : ProgressSnapshot) :
    nonTerminalArgs (progressUpdate p) :=
  ⟨Or.inl rfl, rfl, rfl⟩

theorem recClean_patch (r : JobRecord) (now : Nat) (a : UpdateArgs)
    (ha : nonTerminalArgs a) (hr : recClean r) : recClean (patchRecord r now a) := by
  obtain ⟨has, har, hae⟩ := ha
  obtain ⟨hrs, hrr, hre⟩ := hr
  refine ⟨?_, ?_, ?_⟩
  · rcases has with h | h
    · simpa [patchRecord, h] using hrs
    · simp [patchRecord, h]
  · simp [patchRecord, har, hrr]
  · simp [patchRecord, hae, hre]

theorem popEff_store (st : RunSt) : (popEff st).2.store = st.store := by
  unfold popEff; cases st.env <;> rfl

theorem popEff_trace (st : RunSt) : (popEff st).2.trace = st.trace := by
  unfold popEff; cases st.env <;> rfl

theorem doExt_store (st : RunSt) : (doExt st).1.store = st.store := by
  unfold doExt
  rcases hp : popEff st with ⟨r, st'⟩
  have h := popEff_store st
  rw [hp] at h
  cases r <;> exact h

theorem doExt_trace (st : RunSt) : (doExt st).1.trace = st.trace := by
  unfold doExt
  rcases hp : popEff st with ⟨r, st'⟩
  have h := popEff_trace st
  rw [hp] at h
  cases r <;> exact h

/-- A step that keeps the stored record clean however it exits. -/
def CleanStep {α : Type} (f : RunSt → RunSt × Except PyErr α) (id : String) : Prop :=
  ∀ st, cleanAt st.store id → cleanAt (f st).1.store id

/-- A statement that establishes the terminal-field invariant on success and
keeps the record clean on an exception. -/
def EstablishStep (f : RunSt → RunSt × Except PyErr Unit) (id : String) : Prop :=
  ∀ st, cleanAt st.store id →
    (∀ st' e, f st = (st', Except.error e) → cleanAt st'.store id) ∧
    (∀ st' (v : Unit), f st = (st', Except.ok v) → invAt st'.store id)

theorem cleanAt_update_job (s : JobMap) (id : String) (now : Nat) (a : UpdateArgs)
    (ha : nonTerminalArgs a) (h : cleanAt s id) :
    cleanAt (InMemoryJobStore.update_job s id now a).1 id := by
  cases hg : alistGet s id with
  | none => rw [update_job_of_none s id now a hg]; exact h
  | some r0 =>
    rw [update_job_of_some s id now a r0 hg]
    intro r hr
    rw [alistGet_alistSet_self] at hr
    cases hr
    exact recClean_patch r0 now a ha (h r0 hg)

theorem cleanStep_doUpdate (id : String) (now : Nat) (a : UpdateArgs)
    (ha : nonTerminalArgs a) : CleanStep (doUpdate id now a) id := by
  intro st h
  unfold doUpdate
  rcases hp : popEff st with ⟨r, st'⟩
  have hss := popEff_store st
  rw [hp] at hss
  cases r with
  | err e =>
    show cleanAt st'.store id
    rw [hss]; exact h
  | ok v =>
    show cleanAt (RedisJobStoreSync.update_job st'.store id now a).1 id
    rw [redisSync_update_eq_inMemory]
    exact cleanAt_update_job st'.store id now a ha (hss ▸ h)

theorem cleanStep_doExt (id : String) : CleanStep doExt id := by
  intro st h
  rw [doExt_store st]
  exact h

theorem cleanStep_pdone (id : String) : CleanStep pdone id := fun _ h => h

theorem cleanStep_pseq {α : Type} (f : RunSt → RunSt × Except PyErr α)
    (k : α → RunSt → RunSt × Except PyErr Unit) (id : String)
    (hf : CleanStep f id) (hk : ∀ v, CleanStep (k v) id) :
    CleanStep (pseq f k) id := by
  intro st h
  unfold pseq
  rcases hfst : f st with ⟨st1, r⟩
  have h1 := hf st h
  rw [hfst] at h1
  cases r with
  | error e => exact h1
  | ok v => exact hk v st1 h1

theorem cleanStep_ite {α : Type} (c : Bool) (f g : RunSt → RunSt × Except PyErr α)
    (id : String) (hf : CleanStep f id) (hg : CleanStep g id) :
    CleanStep (if c then f else g) id := by
  cases c
  · simpa using hg
  · simpa using hf

theorem cleanStep_concatLoop (job_id : String) (now : Nat) :
    ∀ (inputs : List ConcatInput) (index : Nat),
      CleanStep (concatDownloadLoop job_id now inputs index) job_id := by
  intro inputs
  induction inputs with
  | nil => intro index; exact cleanStep_pdone job_id
  | cons item rest ih =>
    intro index
    refine cleanStep_pseq _ _ _ (cleanStep_doUpdate _ _ _ (nonTerminalArgs_progress _)) ?_
    intro _
    refine cleanStep_pseq _ _ _ (cleanStep_doExt _) ?_
    intro _
    refine cleanStep_pseq _ _ _ (cleanStep_doExt _) ?_
    intro _
    refine cleanStep_ite _ _ _ _ ?_ (ih (index + 1))
    refine cleanStep_pseq _ _ _ (cleanStep_doExt _) ?_
    intro _
    exact ih (index + 1)

theorem cleanStep_concatAudio (job_id : String) (now : Nat) :
    ∀ track : Option String, CleanStep (concatAudioStep job_id now track) job_id := by
  intro track
  cases track with
  | none => exact cleanStep_pdone job_id
  | some tr =>
    refine cleanStep_pseq _ _ _ (cleanStep_doUpdate _ _ _ (nonTerminalArgs_progress _)) ?_
    intro _
    refine cleanStep_pseq _ _ _ (cleanStep_doExt _) ?_
    intro _
    refine cleanStep_pseq _ _ _ (cleanStep_doExt _) ?_
    intro _
    refine cleanStep_pseq _ _ _ (cleanStep_doExt _) ?_
    intro _
    exact cleanStep_pdone job_id

theorem cleanStep_overlayLoop (job_id : String) (now : Nat) :
    ∀ (overlays : List OverlayAsset) (index : Nat),
      CleanStep (overlayDownloadLoop job_id now overlays index) job_id := by
  intro overlays
  induction overlays with
  | nil => intro index; exact cleanStep_pdone job_id
  | cons item rest ih =>
    intro index
    refine cleanStep_pseq _ _ _ (cleanStep_doUpdate _ _ _ (nonTerminalArgs_progress _)) ?_
    intro _
    refine cleanStep_pseq _ _ _ (cleanStep_doExt _) ?_
    intro _
    refine cleanStep_pseq _ _ _ (cleanStep_doExt _) ?_
    intro _
    exact ih (index + 1)

/-- Update arguments of the two terminal updates. -/
def terminalArgs (a : UpdateArgs) : Prop :=
  (∃ w, a.status = some .succeeded ∧ a.result_media_id = some w ∧ a.error = none) ∨
  (∃ e, a.status = some .failed ∧ a.result_media_id = none ∧ a.error = some e)

theorem invAt_update_terminal (s : JobMap) (id : String) (now : Nat) (a : UpdateArgs)
    (hterm : terminalArgs a) (h : cleanAt s id) :
    invAt (InMemoryJobStore.update_job s id now a).1 id := by
  cases hg : alistGet s id with
  | none =>
    rw [update_job_of_none s id now a hg]
    exact invAt_of_cleanAt s id h
  | some r0 =>
    rw [update_job_of_some s id now a r0 hg]
    intro r hr
    rw [alistGet_alistSet_self] at hr
    cases hr
    obtain ⟨hcs, hcr, hce⟩ := h r0 hg
    rcases hterm with ⟨w, h1, h2, h3⟩ | ⟨e, h1, h2, h3⟩
    · exact ⟨by simp [patchRecord, h1, h2], by simp [patchRecord, h1, h3, hce]⟩
    · exact ⟨by simp [patchRecord, h1, h2, hcr], by simp [patchRecord, h1, h3]⟩

theorem invAt_doUpdate_terminal (id : String) (now : Nat) (a : UpdateArgs)
    (hterm : terminalArgs a) :
    ∀ st, cleanAt st.store id → invAt (doUpdate id now a st).1.store id := by
  intro st h
  unfold doUpdate
  rcases hp : popEff st with ⟨r, st'⟩
  have hss := popEff_store st
  rw [hp] at hss
  cases r with
  | err e =>
    show invAt st'.store id
    rw [hss]
    exact invAt_of_cleanAt _ _ h
  | ok v =>
    show invAt (RedisJobStoreSync.update_job st'.store id now a).1 id
    rw [redisSync_update_eq_inMemory]
    exact invAt_update_terminal st'.store id now a hterm (hss ▸ h)

theorem establish_doUpdate_terminal (id : String) (now : Nat) (a : UpdateArgs)
    (hterm : terminalArgs a) : EstablishStep (doUpdate id now a) id := by
  intro st h
  constructor
  · intro st' e hEq
    unfold doUpdate at hEq
    rcases hp : popEff st with ⟨r, st1⟩
    rw [hp] at hEq
    have hss := popEff_store st
    rw [hp] at hss
    cases r with
    | err e0 =>
      cases hEq
      rw [hss]
      exact h
    | ok v => simp [Prod.mk.injEq] at hEq
  · intro st' v hEq
    have hi := invAt_doUpdate_terminal id now a hterm st h
    rw [hEq] at hi
    exact hi

theorem establish_pseq {α : Type} (f : RunSt → RunSt × Except PyErr α)
    (k : α → RunSt → RunSt × Except PyErr Unit) (id : String)
    (hf : CleanStep f id) (hk : ∀ v, EstablishStep (k v) id) :
    EstablishStep (pseq f k) id := by
  intro st h
  rcases hfst : f st with ⟨st1, r⟩
  have h1 := hf st h
  rw [hfst] at h1
  constructor
  · intro st' e hEq
    unfold pseq at hEq
    rw [hfst] at hEq
    cases r with
    | error e0 =>
      cases hEq
      exact h1
    | ok v => exact (hk v st1 h1).1 st' e hEq
  · intro st' v hEq
    unfold pseq at hEq
    rw [hfst] at hEq
    cases r with
    | error e0 => simp [Prod.mk.injEq] at hEq
    | ok v0 => exact (hk v0 st1 h1).2 st' v hEq

theorem establish_concat_body (job_id : String) (now : Nat) (req : ConcatJobRequest)
    (summary : PyDict) : EstablishStep (concat_body job_id now req summary) job_id := by
  refine establish_pseq _ _ _ (cleanStep_concatLoop job_id now req.inputs 0) ?_
  intro _
  refine establish_pseq _ _ _ (cleanStep_doUpdate _ _ _ (nonTerminalArgs_progress _)) ?_
  intro _
  refine establish_pseq _ _ _ (cleanStep_doExt _) ?_
  intro _
  refine establish_pseq _ _ _ (cleanStep_concatAudio job_id now req.audio_track) ?_
  intro _
  refine establish_pseq _ _ _ (cleanStep_doUpdate _ _ _ (nonTerminalArgs_progress _)) ?_
  intro _
  refine establish_pseq _ _ _ (cleanStep_doExt _) ?_
  intro _
  refine establish_pseq _ _ _ (cleanStep_doUpdate _ _ _ (nonTerminalArgs_progress _)) ?_
  intro _
  refine establish_pseq _ _ _ (cleanStep_doExt _) ?_
  intro v
  exact establish_doUpdate_terminal job_id now
    { status := some .succeeded
      progress := some (mkProgress now 100 "completed" "Job completed")
      result_media_id := some v
      metadata := some summary
      message := some "Video concatenation successful" } (Or.inl ⟨v, rfl, rfl, rfl⟩)

theorem establish_overlay_body (job_id : String) (now : Nat) (req : OverlayJobRequest)
    (summary : PyDict) : EstablishStep (overlay_body job_id now req summary) job_id := by
  refine establish_pseq _ _ _ (cleanStep_doExt _) ?_
  intro _
  refine establish_pseq _ _ _ (cleanStep_doExt _) ?_
  intro _
  refine establish_pseq _ _ _ (cleanStep_overlayLoop job_id now req.overlays 0) ?_
  intro _
  refine establish_pseq _ _ _ (cleanStep_doUpdate _ _ _ (nonTerminalArgs_progress _)) ?_
  intro _
  refine establish_pseq _ _ _ (cleanStep_doExt _) ?_
  intro _
  refine establish_pseq _ _ _ (cleanStep_doUpdate _ _ _ (nonTerminalArgs_progress _)) ?_
  intro _
  refine establish_pseq _ _ _ (cleanStep_doExt _) ?_
  intro _
  refine establish_pseq _ _ _ (cleanStep_doUpdate _ _ _ (nonTerminalArgs_progress _)) ?_
  intro _
  refine establish_pseq _ _ _ (cleanStep_doExt _) ?_
  intro v
  exact establish_doUpdate_terminal job_id now
    { status := some .succeeded
      progress := some (mkProgress now 100 "completed" "Job completed")
      result_media_id := some v
      metadata := some summary
      message := some "Overlay applied successfully" } (Or.inl ⟨v, rfl, rfl, rfl⟩)

theorem concat_video_invAt (job_id : String) (now : Nat) (req : ConcatJobRequest)
    (summary : PyDict) :
    ∀ st, cleanAt st.store job_id →
      invAt (concat_video job_id now req summary st).1.store job_id := by
  intro st h
  have hrun : nonTerminalArgs
      ({ status := some .running
         progress := some (mkProgress now 5 "accepted" "Job accepted by worker") } :
        UpdateArgs) := ⟨Or.inr rfl, rfl, rfl⟩
  unfold concat_video
  split
  next st1 e h0 =>
    have hc := cleanStep_doUpdate job_id now _ hrun st h
    rw [h0] at hc
    exact invAt_of_cleanAt _ _ hc
  next st1 v h0 =>
    have h1 : cleanAt st1.store job_id := by
      have hc := cleanStep_doUpdate job_id now _ hrun st h
      rw [h0] at hc
      exact hc
    have hE := establish_concat_body job_id now req summary st1 h1
    split
    next st2 v2 hb => exact hE.2 st2 v2 hb
    next st2 e hb =>
      have h2 : cleanAt st2.store job_id := hE.1 st2 e hb
      have hfail : invAt (doUpdate job_id now
          { status := some .failed
            progress := some (mkProgress now 100 "failed" "Processing failed")
            message := some (concatFailureMessage e)
            error := some (pyStr e) } st2).1.store job_id :=
        invAt_doUpdate_terminal job_id now
          { status := some .failed
            progress := some (mkProgress now 100 "failed" "Processing failed")
            message := some (concatFailureMessage e)
            error := some (pyStr e) }
          (Or.inr ⟨pyStr e, rfl, rfl, rfl⟩) st2 h2
      split
      next st3 e2 hh =>
        rw [hh] at hfail
        exact hfail
      next st3 v3 hh =>
        rw [hh] at hfail
        exact hfail

theorem overlay_video_invAt (job_id : String) (now : Nat) (req : OverlayJobRequest)
    (summary : PyDict) :
    ∀ st, cleanAt st.store job_id →
      invAt (overlay_video job_id now req summary st).1.store job_id := by
  intro st h
  have hrun : nonTerminalArgs
      ({ status := some .running
         progress := some (mkProgress now 5 "accepted" "Job accepted by worker") } :
        UpdateArgs) := ⟨Or.inr rfl, rfl, rfl⟩
  unfold overlay_video
  split
  next st1 e h0 =>
    have hc := cleanStep_doUpdate job_id now _ hrun st h
    rw [h0] at hc
    exact invAt_of_cleanAt _ _ hc
  next st1 v h0 =>
    have h1 : cleanAt st1.store job_id := by
      have hc := cleanStep_doUpdate job_id now _ hrun st h
      rw [h0] at hc
      exact hc
    have hE := establish_overlay_body job_id now req summary st1 h1
    split
    next st2 v2 hb => exact hE.2 st2 v2 hb
    next st2 e hb =>
      have h2 : cleanAt st2.store job_id := hE.1 st2 e hb
      have hfail : invAt (doUpdate job_id now
          { status := some .failed
            progress := some (mkProgress now 100 "failed" "Processing failed")
            message := some (overlayFailureMessage e)
            error := some (pyStr e) } st2).1.store job_id :=
        invAt_doUpdate_terminal job_id now
          { status := some .failed
            progress := some (mkProgress now 100 "failed" "Processing failed")
            message := some (overlayFailureMessage e)
            error := some (pyStr e) }
          (Or.inr ⟨pyStr e, rfl, rfl, rfl⟩) st2 h2
      split
      next st3 e2 hh =>
        rw [hh] at hfail
        exact hfail
      next st3 v3 hh =>
        rw [hh] at hfail
        exact hfail

/-! ## Progress traces -/

/-- The percent an `update_job` call would write, if any. -/
def progressPercents (a : UpdateArgs) : List Nat :=
  match a.progress with
  | some p => [p.percent]
  | none => []

/-- A step appends to the trace some subsequence of `L`, whatever the
environment does. -/
def TraceStep {α : Type} (f : RunSt → RunSt × Except PyErr α) (L : List Nat) : Prop :=
  ∀ st, ∃ t, (f st).1.trace = st.trace ++ t ∧ t.Sublist L

theorem traceStep_mono {α : Type} (f : RunSt → RunSt × Except PyErr α)
    {L L' : List Nat} (h : TraceStep f L) (hsub : L.Sublist L') : TraceStep f L' :=
  fun st =>
    match h st with
    | ⟨t, h1, h2⟩ => ⟨t, h1, h2.trans hsub⟩

theorem traceStep_pdone : TraceStep pdone [] :=
  fun st => ⟨[], by simp [pdone], List.Sublist.refl []⟩

theorem traceStep_doExt : TraceStep doExt [] :=
  fun st => ⟨[], by simp [doExt_trace st], List.Sublist.refl []⟩

theorem traceStep_doUpdate (id : String) (now : Nat) (a : UpdateArgs) :
    TraceStep (doUpdate id now a) (progressPercents a) := by
  intro st
  unfold doUpdate
  rcases hp : popEff st with ⟨r, st'⟩
  have hst := popEff_trace st
  rw [hp] at hst
  cases r with
  | err e =>
    have hst2 : st'.trace = st.trace := hst
    exact ⟨[], by simp [hst2], List.nil_sublist _⟩
  | ok v =>
    have hst2 : st'.trace = st.trace := hst
    show ∃ t, (match a.progress, (RedisJobStoreSync.update_job st'.store id now a).2 with
      | some p, some _ => st'.trace ++ [p.percent]
      | _, _ => st'.trace) = st.trace ++ t ∧ t.Sublist (progressPercents a)
    cases hprog : a.progress with
    | none => exact ⟨[], by simp [hst2], List.nil_sublist _⟩
    | some p =>
      cases hupd : (RedisJobStoreSync.update_job st'.store id now a).2 with
      | none => exact ⟨[], by simp [hst2], List.nil_sublist _⟩
      | some rres =>
        exact ⟨[p.percent], by simp [hst2], by simp [progressPercents, hprog]⟩

theorem traceStep_pseq {α : Type} (f : RunSt → RunSt × Except PyErr α)
    (k : α → RunSt → RunSt × Except PyErr Unit) {L1 L2 : List Nat}
    (hf : TraceStep f L1) (hk : ∀ v, TraceStep (k v) L2) :
    TraceStep (pseq f k) (L1 ++ L2) := by
  intro st
  obtain ⟨t1, h1, hs1⟩ := hf st
  rcases hfst : f st with ⟨st1, r⟩
  rw [hfst] at h1
  cases r with
  | error e =>
    refine ⟨t1, ?_, hs1.trans (List.sublist_append_left L1 L2)⟩
    show (pseq f k st).1.trace = _
    unfold pseq
    rw [hfst]
    exact h1
  | ok v =>
    obtain ⟨t2, h2, hs2⟩ := hk v st1
    refine ⟨t1 ++ t2, ?_, hs1.append hs2⟩
    show (pseq f k st).1.trace = _
    unfold pseq
    rw [hfst, h2, h1, List.append_assoc]

theorem traceStep_ite {α : Type} (c : Bool) (f g : RunSt → RunSt × Except PyErr α)
    (L : List Nat) (hf : TraceStep f L) (hg : TraceStep g L) :
    TraceStep (if c then f else g) L := by
  cases c
  · simpa using hg
  · simpa using hf

theorem traceStep_concatLoop (job_id : String) (now : Nat) :
    ∀ (inputs : List ConcatInput) (index : Nat),
      TraceStep (concatDownloadLoop job_id now inputs index)
        ((List.range inputs.length).map (fun j => 10 + (index + j) * 10)) := by
  intro inputs
  induction inputs with
  | nil => intro index; exact traceStep_pdone
  | cons item rest ih =>
    intro index
    have hL : (List.range (item :: rest).length).map (fun j => 10 + (index + j) * 10) =
        (10 + index * 10) ::
          (List.range rest.length).map (fun j => 10 + ((index + 1) + j) * 10) := by
      rw [List.length_cons, List.range_succ_eq_map, List.map_cons, List.map_map]
      refine congrArg₂ _ (by omega) ?_
      apply List.map_congr_left
      intro j _
      show 10 + (index + (j + 1)) * 10 = 10 + ((index + 1) + j) * 10
      omega
    rw [hL]
    refine traceStep_pseq _ _ (traceStep_doUpdate _ _ _) ?_
    intro _
    refine traceStep_pseq _ _ traceStep_doExt ?_
    intro _
    refine traceStep_pseq _ _ traceStep_doExt ?_
    intro _
    refine traceStep_ite _ _ _ _ ?_ (ih (index + 1))
    refine traceStep_pseq _ _ traceStep_doExt ?_
    intro _
    exact ih (index + 1)

theorem traceStep_concatAudio (job_id : String) (now : Nat) :
    ∀ track : Option String,
      TraceStep (concatAudioStep job_id now track)
        (if track.isSome then [75] else []) := by
  intro track
  cases track with
  | none => exact traceStep_pdone
  | some tr =>
    refine traceStep_pseq _ _ (traceStep_doUpdate _ _ _) ?_
    intro _
    refine traceStep_pseq _ _ traceStep_doExt ?_
    intro _
    refine traceStep_pseq _ _ traceStep_doExt ?_
    intro _
    refine traceStep_pseq _ _ traceStep_doExt ?_
    intro _
    exact traceStep_pdone

theorem traceStep_concat_body (job_id : String) (now : Nat) (req : ConcatJobRequest)
    (summary : PyDict) :
    TraceStep (concat_body job_id now req summary)
      (((List.range req.inputs.length).map (fun j => 10 + j * 10)) ++
        ([60] ++ ((if req.audio_track.isSome then [75] else []) ++ [85, 92, 100]))) := by
  have hloop : TraceStep (concatDownloadLoop job_id now req.inputs 0)
      ((List.range req.inputs.length).map (fun j => 10 + j * 10)) := by
    have h0 := traceStep_concatLoop job_id now req.inputs 0
    have he : (List.range req.inputs.length).map (fun j => 10 + (0 + j) * 10) =
        (List.range req.inputs.length).map (fun j => 10 + j * 10) := by
      apply List.map_congr_left
      intro a _
      omega
    rwa [he] at h0
  refine traceStep_pseq _ _ hloop ?_
  intro _
  refine traceStep_pseq _ _ (traceStep_doUpdate _ _ _) ?_
  intro _
  refine @traceStep_pseq _ _ _ [] _ traceStep_doExt ?_
  intro _
  refine traceStep_pseq _ _ (traceStep_concatAudio job_id now req.audio_track) ?_
  intro _
  refine traceStep_pseq _ _ (traceStep_doUpdate _ _ _) ?_
  intro _
  refine @traceStep_pseq _ _ _ [] _ traceStep_doExt ?_
  intro _
  refine traceStep_pseq _ _ (traceStep_doUpdate _ _ _) ?_
  intro _
  refine @traceStep_pseq _ _ _ [] _ traceStep_doExt ?_
  intro v
  exact traceStep_doUpdate _ _ _

theorem traceStep_overlayLoop (job_id : String) (now : Nat) :
    ∀ (overlays : List OverlayAsset) (index : Nat),
      TraceStep (overlayDownloadLoop job_id now overlays index)
        ((List.range overlays.length).map (fun j => 15 + (index + j) * 5)) := by
  intro overlays
  induction overlays with
  | nil => intro index; exact traceStep_pdone
  | cons item rest ih =>
    intro index
    have hL : (List.range (item :: rest).length).map (fun j => 15 + (index + j) * 5) =
        (15 + index * 5) ::
          (List.range rest.length).map (fun j => 15 + ((index + 1) + j) * 5) := by
      rw [List.length_cons, List.range_succ_eq_map, List.map_cons, List.map_map]
      refine congrArg₂ _ (by omega) ?_
      apply List.map_congr_left
      intro j _
      show 15 + (index + (j + 1)) * 5 = 15 + ((index + 1) + j) * 5
      omega
    rw [hL]
    refine traceStep_pseq _ _ (traceStep_doUpdate _ _ _) ?_
    intro _
    refine traceStep_pseq _ _ traceStep_doExt ?_
    intro _
    refine traceStep_pseq _ _ traceStep_doExt ?_
    intro _
    exact ih (index + 1)

theorem traceStep_overlay_body (job_id : String) (now : Nat) (req : OverlayJobRequest)
    (summary : PyDict) :
    TraceStep (overlay_body job_id now req summary)
      (((List.range req.overlays.length).map (fun j => 15 + j * 5)) ++ [60, 85, 92, 100]) := by
  have hloop : TraceStep (overlayDownloadLoop job_id now req.overlays 0)
      ((List.range req.overlays.length).map (fun j => 15 + j * 5)) := by
    have h0 := traceStep_overlayLoop job_id now req.overlays 0
    have he : (List.range req.overlays.length).map (fun j => 15 + (0 + j) * 5) =
        (List.range req.overlays.length).map (fun j => 15 + j * 5) := by
      apply List.map_congr_left
      intro a _
      omega
    rwa [he] at h0
  refine @traceStep_pseq _ _ _ [] _ traceStep_doExt ?_
  intro _
  refine @traceStep_pseq _ _ _ [] _ traceStep_doExt ?_
  intro _
  refine traceStep_pseq _ _ hloop ?_
  intro _
  refine traceStep_pseq _ _ (traceStep_doUpdate _ _ _) ?_
  intro _
  refine @traceStep_pseq _ _ _ [] _ traceStep_doExt ?_
  intro _
  refine traceStep_pseq _ _ (traceStep_doUpdate _ _ _) ?_
  intro _
  refine @traceStep_pseq _ _ _ [] _ traceStep_doExt ?_
  intro _
  refine traceStep_pseq _ _ (traceStep_doUpdate _ _ _) ?_
  intro _
  refine @traceStep_pseq _ _ _ [] _ traceStep_doExt ?_
  intro v
  exact traceStep_doUpdate _ _ _

/-- The full percent schedule a concat run can draw from: accepted 5, one
download progress per input, processing 60, optionally audio 75, probe 85,
upload 92, completed 100, and the failure handler's terminal 100. -/
def concatPercents (n : Nat) (audio : Bool) : List Nat :=
  5 :: ((List.range n).map (fun j => 10 + j * 10) ++
    ([60] ++ ((if audio then [75] else []) ++ [85, 92, 100])) ++ [100])

/-- The full percent schedule of an overlay run. -/
def overlayPercents (n : Nat) : List Nat :=
  5 :: ((List.range n).map (fun j => 15 + j * 5) ++ [60, 85, 92, 100] ++ [100])

theorem traceStep_concat_video (job_id : String) (now : Nat) (req : ConcatJobRequest)
    (summary : PyDict) :
    TraceStep (concat_video job_id now req summary)
      (concatPercents req.inputs.length req.audio_track.isSome) := by
  intro st
  obtain ⟨t0, ht0, hs0⟩ := traceStep_doUpdate job_id now
    { status := some .running
      progress := some (mkProgress now 5 "accepted" "Job accepted by worker") } st
  have hs0' : t0.Sublist [5] := by simpa [progressPercents] using hs0
  unfold concat_video
  split
  next st1 e h0 =>
    rw [h0] at ht0
    exact ⟨t0, ht0, hs0'.trans ((List.nil_sublist _).cons₂ 5)⟩
  next st1 v h0 =>
    rw [h0] at ht0
    obtain ⟨t1, ht1, hs1⟩ := traceStep_concat_body job_id now req summary st1
    split
    next st2 v2 hb =>
      rw [hb] at ht1
      refine ⟨t0 ++ t1, by rw [ht1, ht0, List.append_assoc], ?_⟩
      exact hs0'.append (hs1.trans (List.sublist_append_left _ [100]))
    next st2 e hb =>
      rw [hb] at ht1
      obtain ⟨t2, ht2, hs2⟩ := traceStep_doUpdate job_id now
        { status := some .failed
          progress := some (mkProgress now 100 "failed" "Processing failed")
          message := some (concatFailureMessage e)
          error := some (pyStr e) } st2
      have hs2' : t2.Sublist [100] := by simpa [progressPercents] using hs2
      split
      next st3 e2 hh =>
        rw [hh] at ht2
        refine ⟨t0 ++ (t1 ++ t2),
          by rw [ht2, ht1, ht0, List.append_assoc, List.append_assoc], ?_⟩
        exact hs0'.append (hs1.append hs2')
      next st3 v3 hh =>
        rw [hh] at ht2
        refine ⟨t0 ++ (t1 ++ t2),
          by rw [ht2, ht1, ht0, List.append_assoc, List.append_assoc], ?_⟩
        exact hs0'.append (hs1.append hs2')

theorem traceStep_overlay_video (job_id : String) (now : Nat) (req : OverlayJobRequest)
    (summary : PyDict) :
    TraceStep (overlay_video job_id now req summary)
      (overlayPercents req.overlays.length) := by
  intro st
  obtain ⟨t0, ht0, hs0⟩ := traceStep_doUpdate job_id now
    { status := some .running
      progress := some (mkProgress now 5 "accepted" "Job accepted by worker") } st
  have hs0' : t0.Sublist [5] := by simpa [progressPercents] using hs0
  unfold overlay_video
  split
  next st1 e h0 =>
    rw [h0] at ht0
    exact ⟨t0, ht0, hs0'.trans ((List.nil_sublist _).cons₂ 5)⟩
  next st1 v h0 =>
    rw [h0] at ht0
    obtain ⟨t1, ht1, hs1⟩ := traceStep_overlay_body job_id now req summary st1
    split
    next st2 v2 hb =>
      rw [hb] at ht1
      refine ⟨t0 ++ t1, by rw [ht1, ht0, List.append_assoc], ?_⟩
      exact hs0'.append (hs1.trans (List.sublist_append_left _ [100]))
    next st2 e hb =>
      rw [hb] at ht1
      obtain ⟨t2, ht2, hs2⟩ := traceStep_doUpdate job_id now
        { status := some .failed
          progress := some (mkProgress now 100 "failed" "Processing failed")
          message := some (overlayFailureMessage e)
          error := some (pyStr e) } st2
      have hs2' : t2.Sublist [100] := by simpa [progressPercents] using hs2
      split
      next st3 e2 hh =>
        rw [hh] at ht2
        refine ⟨t0 ++ (t1 ++ t2),
          by rw [ht2, ht1, ht0, List.append_assoc, List.append_assoc], ?_⟩
        exact hs0'.append (hs1.append hs2')
      next st3 v3 hh =>
        rw [hh] at ht2
        refine ⟨t0 ++ (t1 ++ t2),
          by rw [ht2, ht1, ht0, List.append_assoc, List.append_assoc], ?_⟩
        exact hs0'.append (hs1.append hs2')

theorem concatPercents_sorted (n : Nat) (audio : Bool) (h : n ≤ 6) :
    List.Sorted (· ≤ ·) (concatPercents n audio) := by
  interval_cases n <;> cases audio <;> decide

theorem overlayPercents_sorted (n : Nat) (h : n ≤ 10) :
    List.Sorted (· ≤ ·) (overlayPercents n) := by
  interval_cases n <;> decide

/-! ## Claims about the pipelines -/

/-- Claim C1 counterexample: under a duplicate task delivery, a job which first
fails (recording `FAILED` with an error) and is then re-run to success ends
as a `SUCCEEDED` record whose error is still the stale non-null `"fetch
failed"` — `update_job` never clears a field, so `error` non-null no longer
implies status `FAILED`.  The first run is shown to have ended terminal
`FAILED` before the re-delivery. -/
theorem C1_counterexample :
    ((alistGet (concat_video "job-1" 1 ⟨[sampleInput "a"], none, "mp4", []⟩ []
        ⟨[("job-1", sampleRecord)],
          [.ok "", .ok "", .err (.gatewayError "fetch failed")], []⟩).1.store
        "job-1").map JobRecord.status = some .failed) ∧
    ((alistGet (concat_video "job-1" 2 ⟨[sampleInput "a"], none, "mp4", []⟩ []
        ⟨(concat_video "job-1" 1 ⟨[sampleInput "a"], none, "mp4", []⟩ []
            ⟨[("job-1", sampleRecord)],
              [.ok "", .ok "", .err (.gatewayError "fetch failed")], []⟩).1.store,
          [], []⟩).1.store "job-1").map JobRecord.status = some .succeeded) ∧
    ((alistGet (concat_video "job-1" 2 ⟨[sampleInput "a"], none, "mp4", []⟩ []
        ⟨(concat_video "job-1" 1 ⟨[sampleInput "a"], none, "mp4", []⟩ []
            ⟨[("job-1", sampleRecord)],
              [.ok "", .ok "", .err (.gatewayError "fetch failed")], []⟩).1.store,
          [], []⟩).1.store "job-1").bind JobRecord.error = some "fetch failed") := by
  refine ⟨?_, ?_, ?_⟩
  · decide
  · decide
  · decide

/-- Claim C1 (amended): over a single pipeline execution — concat or overlay,
under every sequence of external/store outcomes — starting from a store
whose record for the job (if present) is non-terminal with null result and
null error, the final record satisfies the invariant: result non-null iff
`SUCCEEDED` and error non-null iff `FAILED`.  Under a duplicate delivery
that re-runs a pipeline on a record already terminal the invariant can
break, because `update_job` never clears the other terminal field. -/
theorem C1_terminal_fields_single_run :
    ∀ (store : JobMap) (env : List EffR) (job_id : String) (now : Nat)
      (creq : ConcatJobRequest) (oreq : OverlayJobRequest) (summary : PyDict),
      cleanAt store job_id →
      invAt (concat_video job_id now creq summary ⟨store, env, []⟩).1.store job_id ∧
      invAt (overlay_video job_id now oreq summary ⟨store, env, []⟩).1.store job_id := by
  intro store env job_id now creq oreq summary h
  exact ⟨concat_video_invAt job_id now creq summary ⟨store, env, []⟩ h,
    overlay_video_invAt job_id now oreq summary ⟨store, env, []⟩ h⟩

/-- Witness for `C1_terminal_fields_single_run` at a concrete queued record
and the all-success environment. -/
theorem C1_terminal_fields_single_run_witness :
    cleanAt [("job-1", sampleRecord)] "job-1" ∧
    invAt (concat_video "job-1" 1 ⟨[sampleInput "a"], none, "mp4", []⟩ []
      ⟨[("job-1", sampleRecord)], [], []⟩).1.store "job-1" ∧
    invAt (overlay_video "job-1" 1 ⟨"base", [sampleOverlay "o"], "mp4", []⟩ []
      ⟨[("job-1", sampleRecord)], [], []⟩).1.store "job-1" := by
  have hclean : cleanAt [("job-1", sampleRecord)] "job-1" := by
    intro r hr
    simp [alistGet] at hr
    subst hr
    exact ⟨Or.inl rfl, rfl, rfl⟩
  have h := C1_terminal_fields_single_run [("job-1", sampleRecord)] [] "job-1" 1
    ⟨[sampleInput "a"], none, "mp4", []⟩ ⟨"base", [sampleOverlay "o"], "mp4", []⟩ [] hclean
  exact ⟨hclean, h.1, h.2⟩

/-- Claim C2 counterexample: a concat job with seven inputs writes the download
progress values 10..70 and then the fixed 60 of the processing step — the
persisted percent sequence decreases from 70 to 60. -/
theorem C2_counterexample :
    ((concat_video "job-1" 1
        ⟨["a", "b", "c", "d", "e", "f", "g"].map sampleInput, none, "mp4", []⟩ []
        ⟨[("job-1", sampleRecord)], [], []⟩).1.trace =
      [5, 10, 20, 30, 40, 50, 60, 70, 60, 85, 92, 100]) ∧
    ¬ List.Sorted (· ≤ ·)
      ((concat_video "job-1" 1
          ⟨["a", "b", "c", "d", "e", "f", "g"].map sampleInput, none, "mp4", []⟩ []
          ⟨[("job-1", sampleRecord)], [], []⟩).1.trace) := by
  constructor
  · decide
  · decide

/-- Claim C2 (amended): the sequence of progress percent values written to the
job record over one pipeline execution — under every sequence of
external/store outcomes — is non-decreasing, provided the concat job has at
most 6 inputs and the overlay job at most 10 overlays; with more inputs the
per-input download progress (10 + 10·index, resp. 15 + 5·index) exceeds the
fixed 60 of the processing step and the sequence decreases. -/
theorem C2_progress_monotone :
    ∀ (store : JobMap) (env : List EffR) (job_id : String) (now : Nat)
      (creq : ConcatJobRequest) (oreq : OverlayJobRequest) (summary : PyDict),
      creq.inputs.length ≤ 6 → oreq.overlays.length ≤ 10 →
      List.Sorted (· ≤ ·)
        ((concat_video job_id now creq summary ⟨store, env, []⟩).1.trace) ∧
      List.Sorted (· ≤ ·)
        ((overlay_video job_id now oreq summary ⟨store, env, []⟩).1.trace) := by
  intro store env job_id now creq oreq summary hc ho
  constructor
  · obtain ⟨t, ht, hs⟩ := traceStep_concat_video job_id now creq summary ⟨store, env, []⟩
    have hsort : List.Sorted (· ≤ ·) t :=
      List.Pairwise.sublist hs (concatPercents_sorted _ _ hc)
    rw [ht]
    simpa using hsort
  · obtain ⟨t, ht, hs⟩ := traceStep_overlay_video job_id now oreq summary ⟨store, env, []⟩
    have hsort : List.Sorted (· ≤ ·) t :=
      List.Pairwise.sublist hs (overlayPercents_sorted _ ho)
    rw [ht]
    simpa using hsort

/-- Witness for `C2_progress_monotone`: a two-input concat job with an
audio override and a one-overlay job, all steps succeeding. -/
theorem C2_progress_monotone_witness :
    (⟨[sampleInput "a", sampleInput "b"], some "aud", "mp4", []⟩ :
      ConcatJobRequest).inputs.length ≤ 6 ∧
    List.Sorted (· ≤ ·)
      ((concat_video "job-1" 1 ⟨[sampleInput "a", sampleInput "b"], some "aud", "mp4", []⟩
        [] ⟨[("job-1", sampleRecord)], [], []⟩).1.trace) ∧
    List.Sorted (· ≤ ·)
      ((overlay_video "job-1" 1 ⟨"base", [sampleOverlay "o"], "mp4", []⟩
        [] ⟨[("job-1", sampleRecord)], [], []⟩).1.trace) := by
  have h := C2_progress_monotone [("job-1", sampleRecord)] [] "job-1" 1
    ⟨[sampleInput "a", sampleInput "b"], some "aud", "mp4", []⟩
    ⟨"base", [sampleOverlay "o"], "mp4", []⟩ [] (by decide) (by decide)
  exact ⟨by decide, h.1, h.2⟩

/-- Claim C9 counterexample: with every processing-step outcome a success and a
single store failure at the first per-input progress update, the job does
not continue — it is recorded terminal `FAILED` with the store error as its
error detail, the store exception is re-raised, and no further external
step is consumed.  The terminal status is thus determined by the
progress-persistence failure, not by the processing steps. -/
theorem C9_counterexample :
    ((concat_video "job-1" 1 ⟨[sampleInput "a"], none, "mp4", []⟩ []
        ⟨[("job-1", sampleRecord)],
          [.ok "", .err (.storeError "redis connection lost"), .ok ""], []⟩).2 =
      .error (.storeError "redis connection lost")) ∧
    ((alistGet (concat_video "job-1" 1 ⟨[sampleInput "a"], none, "mp4", []⟩ []
        ⟨[("job-1", sampleRecord)],
          [.ok "", .err (.storeError "redis connection lost"), .ok ""], []⟩).1.store
        "job-1").map JobRecord.status = some .failed) ∧
    ((alistGet (concat_video "job-1" 1 ⟨[sampleInput "a"], none, "mp4", []⟩ []
        ⟨[("job-1", sampleRecord)],
          [.ok "", .err (.storeError "redis connection lost"), .ok ""], []⟩).1.store
        "job-1").bind JobRecord.error = some "redis connection lost") ∧
    ((concat_video "job-1" 1 ⟨[sampleInput "a"], none, "mp4", []⟩ []
        ⟨[("job-1", sampleRecord)],
          [.ok "", .err (.storeError "redis connection lost"), .ok ""], []⟩).1.env = []) := by
  refine ⟨?_, ?_, ?_, ?_⟩
  · decide
  · decide
  · decide
  · decide

/-- Claim C9 (amended): a failure raised while persisting a non-terminal progress
update aborts the job: the generic exception handler records `FAILED` with
the store error as the error detail and re-raises it, and none of the
subsequent processing steps run (no further oracle outcome is consumed).
Shown here for a store failure at the first per-input download progress
update of any concat job. -/
theorem C9_progress_failure_aborts :
    ∀ (job_id : String) (now : Nat) (input : ConcatInput) (rest : List ConcatInput)
      (audio : Option String) (fmt : String) (meta summary : PyDict)
      (store : JobMap) (r0 : JobRecord) (a b m : String) (tail : List EffR),
      alistGet store job_id = some r0 →
      (concat_video job_id now ⟨input :: rest, audio, fmt, meta⟩ summary
          ⟨store, .ok a :: .err (.storeError m) :: .ok b :: tail, []⟩).2 =
        .error (.storeError m) ∧
      (concat_video job_id now ⟨input :: rest, audio, fmt, meta⟩ summary
          ⟨store, .ok a :: .err (.storeError m) :: .ok b :: tail, []⟩).1.env = tail ∧
      ((alistGet (concat_video job_id now ⟨input :: rest, audio, fmt, meta⟩ summary
          ⟨store, .ok a :: .err (.storeError m) :: .ok b :: tail, []⟩).1.store job_id).map
        JobRecord.status = some .failed) ∧
      ((alistGet (concat_video job_id now ⟨input :: rest, audio, fmt, meta⟩ summary
          ⟨store, .ok a :: .err (.storeError m) :: .ok b :: tail, []⟩).1.store job_id).bind
        JobRecord.error = some m) := by
  intro job_id now input rest audio fmt meta summary store r0 a b m tail h
  refine ⟨?_, ?_, ?_, ?_⟩ <;>
    simp [concat_video, concat_body, concatDownloadLoop, pseq, doUpdate, popEff,
      redisSync_update_eq_inMemory, InMemoryJobStore.update_job, h, alistGet_alistSet_self,
      progressUpdate, concatFailureMessage, pyStr, patchRecord]

/-- Witness for `C9_progress_failure_aborts` at a concrete job. -/
theorem C9_progress_failure_aborts_witness :
    alistGet [("job-1", sampleRecord)] "job-1" = some sampleRecord ∧
    (concat_video "job-1" 1 ⟨[sampleInput "a"], none, "mp4", []⟩ []
        ⟨[("job-1", sampleRecord)],
          [.ok "", .err (.storeError "boom"), .ok ""], []⟩).2 =
      .error (.storeError "boom") ∧
    ((alistGet (concat_video "job-1" 1 ⟨[sampleInput "a"], none, "mp4", []⟩ []
        ⟨[("job-1", sampleRecord)],
          [.ok "", .err (.storeError "boom"), .ok ""], []⟩).1.store "job-1").map
      JobRecord.status = some .failed) := by
  have h := C9_progress_failure_aborts "job-1" 1 (sampleInput "a") [] none "mp4" [] []
    [("job-1", sampleRecord)] sampleRecord "" "" "boom" [] (by decide)
  exact ⟨by decide, h.1, h.2.2.1⟩

end MCPVideo
